import Mathlib

/-!
# alert_manager: handler package (notify.go, suppress.go)

A shallow embedding of the notification engine (`notifier`) and of the
suppression engine (`suppressor`) of the `handler` package, and the properties
of the specification checked against it.

Conventions of the embedding

* Instants (`time.Time`) and durations (`time.Duration`) are integers counting
  nanoseconds.  `Sub` is `Time.Sub`, which saturates at the bounds of a 64-bit
  duration.
* A call of `Notify`, `remind` or `Match` reads the clock as one instant `now`.
* A Go map `map[int64]*notification` is a list of key/value pairs.  The order of
  the list is the order in which `range` enumerates the map; nothing is assumed
  about that order.  A well-formed map has no repeated key.
* A send on an output channel (`outChan <- event`) is recorded as one entry
  `(output, event)` appended to the list of deliveries returned by the
  operation.  Blocking of a send is not part of the model.
* Events and alerts are values: the snapshot carried by an event does not change
  after the event was built.
-/

namespace AlertManager

/-! ## Data model -/

/-- Status of an alert (`models.Status_*`). -/
inductive AlertStatus where
  | ACTIVE
  | SUPPRESSED
  | EXPIRED
  | CLEARED
  deriving DecidableEq, Repr

/-- Type of an alert event (`EventType_*`). -/
inductive EventType where
  | ACTIVE
  | SUPPRESSED
  | CLEARED
  | EXPIRED
  | ESCALATED
  deriving DecidableEq, Repr

/-- The fields of `models.Alert` that the notifier reads. -/
structure Alert where
  Id : Int
  Name : String
  Status : AlertStatus
  StartTime : Int
  LastActive : Int
  deriving DecidableEq, Repr

/-- An alert event: the alert and the type of the transition (`event.Type`). -/
structure AlertEvent where
  Alert : Alert
  Typ : EventType
  deriving DecidableEq, Repr

/-- The notification policy of one alert name (`alertConfig.Config`). -/
structure AlertConfig where
  DisableNotify : Bool
  NotifyDelay : Int
  NotifyRemind : Int
  NotifyOnClear : Bool
  Outputs : List String
  deriving DecidableEq, Repr

/-- The collaborators of the notifier: the configuration handler
(`Config.GetAlertConfig`, `none` when no config is found for the name), the
registry of output queues (`Outputs`, `true` for a name with a registered
queue) and the name of the default output (`DefaultOutput`). -/
structure Env where
  GetAlertConfig : String → Option AlertConfig
  Outputs : String → Bool
  DefaultOutput : String

/-- One delivery: the event was sent on the queue of the named output. -/
abbrev Delivery := String × AlertEvent

/-- Tracking record of one notified alert. -/
structure notification where
  event : AlertEvent
  lastNotified : Int
  deriving DecidableEq, Repr

/-- The record map `map[int64]*notification`, as a list of pairs. -/
abbrev NotifMap := List (Int × notification)

/-- State of the notifier. -/
structure notifier where
  notifiedAlerts : NotifMap
  deriving DecidableEq, Repr

/-! ## Time -/

/-- Smallest value of a `time.Duration`. -/
def minDuration : Int := -(2 ^ 63)

/-- Largest value of a `time.Duration`. -/
def maxDuration : Int := 2 ^ 63 - 1

/-- `t.Sub(u)`: the duration `t - u`, or the smallest or largest duration when
the difference does not fit. -/
def Sub (t u : Int) : Int :=
  if minDuration ≤ t - u ∧ t - u ≤ maxDuration then t - u
  else if t < u then minDuration
  else maxDuration

/-- Two minutes, in nanoseconds. -/
def twoMinutes : Int := 2 * 60 * 1000000000

/-! ## Map operations -/

/-- Read `m[id]`: the record and whether the key is present. -/
def mapGet : NotifMap → Int → Option notification
  | [], _ => none
  | (k, v) :: rest, id => if k = id then some v else mapGet rest id

/-- Update through the pointer stored at `m[id]`. -/
def mapModify (m : NotifMap) (id : Int) (f : notification → notification) : NotifMap :=
  m.map (fun kv => if kv.1 = id then (kv.1, f kv.2) else kv)

/-- Assignment `m[id] = v`: replaces the value of an existing key, adds the key
otherwise. -/
def mapSet (m : NotifMap) (id : Int) (v : notification) : NotifMap :=
  if (mapGet m id).isSome then mapModify m id (fun _ => v) else m ++ [(id, v)]

/-- The builtin `delete(m, id)`. -/
def mapDelete (m : NotifMap) (id : Int) : NotifMap :=
  m.filter (fun kv => decide (kv.1 ≠ id))

/-- The keys of the map, in enumeration order. -/
def mapKeys (m : NotifMap) : List Int := m.map Prod.fst

/-! ## notify.go -/

/-- The method `send`: when `outputs` is empty the default output is used; the
event is then sent, in order, on the queue of every listed output that has
one. -/
def send (env : Env) (event : AlertEvent) (outputs : List String) : List Delivery :=
  let outputs := if outputs.length = 0 then outputs ++ [env.DefaultOutput] else outputs
  outputs.foldl
    (fun sent output => if env.Outputs output then sent ++ [(output, event)] else sent) []

/-- The last statement of `Notify` and the body of the second loop of `remind`:
send to the outputs of the config when there is one, to no named output
otherwise. -/
def sendFor (env : Env) (cfg : Option AlertConfig) (event : AlertEvent) : List Delivery :=
  match cfg with
  | some c => send env event c.Outputs
  | none => send env event []

/-- The method `Notify`.  Returns the state after the call and the deliveries
made by the call. -/
def Notify (env : Env) (now : Int) (n : notifier) (event : AlertEvent) :
    notifier × List Delivery :=
  let alert := event.Alert
  let alertConfig := env.GetAlertConfig alert.Name
  if (match alertConfig with
      | some c => c.DisableNotify
      | none => false) then (n, [])
  else
    match event.Typ with
    | EventType.ACTIVE =>
      if (mapGet n.notifiedAlerts alert.Id).isSome then (n, [])
      else if (match alertConfig with
          | some c => decide (Sub alert.LastActive alert.StartTime < c.NotifyDelay)
          | none => false) then (n, [])
      else
        (⟨mapSet n.notifiedAlerts alert.Id ⟨event, now⟩⟩, sendFor env alertConfig event)
    | EventType.CLEARED =>
      let n1 : notifier := ⟨mapDelete n.notifiedAlerts alert.Id⟩
      let notifyOnClear := match alertConfig with
        | some c => c.NotifyOnClear
        | none => false
      if !notifyOnClear then (n1, [])
      else (n1, sendFor env alertConfig event)
    | EventType.EXPIRED =>
      (⟨mapDelete n.notifiedAlerts alert.Id⟩, sendFor env alertConfig event)
    | EventType.SUPPRESSED | EventType.ESCALATED =>
      match mapGet n.notifiedAlerts alert.Id with
      | some _ =>
        (⟨mapModify n.notifiedAlerts alert.Id (fun notif => { notif with event := event })⟩, [])
      | none => (n, sendFor env alertConfig event)

/-- The test of the first loop of `remind`: the record is due for a reminder. -/
def remindDue (env : Env) (now : Int) (notif : notification) : Bool :=
  if notif.event.Alert.Status = AlertStatus.SUPPRESSED then false
  else
    match env.GetAlertConfig notif.event.Alert.Name with
    | some c =>
      if c.NotifyRemind = 0 then false
      else decide (Sub now notif.lastNotified ≥ c.NotifyRemind)
    | none => false

/-- The first loop of `remind`: the ids to notify, in enumeration order. -/
def remindCollect (env : Env) (now : Int) (m : NotifMap) : List Int :=
  m.foldl (fun toNotify kv => if remindDue env now kv.2 then toNotify ++ [kv.1] else toNotify) []

/-- One iteration of the second loop of `remind`.  The lookup cannot miss, since
every collected id is a key of the map; a miss leaves the state as it is. -/
def remindOne (env : Env) (now : Int) (st : notifier × List Delivery) (a : Int) :
    notifier × List Delivery :=
  match mapGet st.1.notifiedAlerts a with
  | none => st
  | some notif =>
    (⟨mapModify st.1.notifiedAlerts a (fun r => { r with lastNotified := now })⟩,
      st.2 ++ sendFor env (env.GetAlertConfig notif.event.Alert.Name) notif.event)

/-- The method `remind`.  Returns the state after the call and the deliveries
made by the call. -/
def remind (env : Env) (now : Int) (n : notifier) : notifier × List Delivery :=
  (remindCollect env now n.notifiedAlerts).foldl (remindOne env now) (n, [])

/-- The outputs an event is routed to: the outputs of the config, the default
output when there is no config or the config lists none. -/
def selectedOutputs (env : Env) (cfg : Option AlertConfig) : List String :=
  match cfg with
  | some c => if c.Outputs = [] then [env.DefaultOutput] else c.Outputs
  | none => [env.DefaultOutput]

/-- One delivery of `event` for each output of `outs` with a registered queue,
in order. -/
def deliveriesTo (env : Env) (event : AlertEvent) (outs : List String) : List Delivery :=
  (outs.filter env.Outputs).map (fun o => (o, event))

/-- What `remind` is expected to do to one record: a due record gets
`lastNotified = now`, any other record is left as it is. -/
def remindMark (env : Env) (now : Int) (kv : Int × notification) : Int × notification :=
  if remindDue env now kv.2 then (kv.1, { kv.2 with lastNotified := now }) else kv

/-! ## suppress.go -/

/-- Labels of an alert and predicate of a rule (`models.Labels`): pairs of a key
and a value. -/
abbrev Labels := List (String × String)

/-- The match condition handed to `rule.Match` (`models.MatchCondition`). -/
abbrev MatchCondition := Int

/-- A suppression rule (`models.SuppressionRule`).  `Rtype` is the field `Type`.
`CreatedAt` is an instant; `Duration` is in the unit of `TimeLeft`. -/
structure SuppressionRule where
  Id : Int
  Rtype : String
  Matches : Labels
  Reason : String
  CreatedBy : String
  CreatedAt : Int
  Duration : Int
  DontExpire : Bool
  deriving DecidableEq, Repr

/-- The zero value `models.SuppressionRule{}`. -/
def zeroRule : SuppressionRule :=
  { Id := 0, Rtype := "", Matches := [], Reason := "", CreatedBy := "", CreatedAt := 0,
    Duration := 0, DontExpire := false }

/-- The two methods of `models.SuppressionRule` that `Match` calls.  They belong
to the models package; the handler code is checked for any such pair.
`TimeLeft rule` is the value of `rule.TimeLeft()` at the instant of the call. -/
structure RuleOps where
  Match : SuppressionRule → Labels → MatchCondition → Bool
  TimeLeft : SuppressionRule → Int

/-- The `less` function handed to `sort.Slice` in `Match`:
`matches[i].CreatedAt.After(matches[j].CreatedAt.Time)`. -/
def createdAfter (a b : SuppressionRule) : Bool := decide (a.CreatedAt > b.CreatedAt)

/-- State of the loop of `Match`: the backing array of `s.suppRules` up to the
length the slice had when the `range` started, the current length of
`s.suppRules`, and the local slice `matches` (here `matched`). -/
structure matchState where
  backing : List SuppressionRule
  len : Nat
  matched : List SuppressionRule
  deriving DecidableEq, Repr

/-- The backing array after `append(s.suppRules[:i], s.suppRules[i+1:]...)` on a
slice of length `len`: the elements at `i+1 .. len-1` are copied one position
down, in place; the positions from `len-1` on keep what they held. -/
def evictAt (backing : List SuppressionRule) (len i : Nat) : List SuppressionRule :=
  backing.take i ++ (backing.drop (i + 1)).take (len - (i + 1)) ++ backing.drop (len - 1)

/-- One iteration of the loop of `Match`, with index `i`.  The rule is read from
the backing array at `i` (the `range` keeps the slice it started with).  The
slice expression `s.suppRules[i+1:]` needs `i + 1 ≤ len(s.suppRules)`; `none` is
the run-time panic `slice bounds out of range`.  An index beyond the backing
array is never reached by the loop. -/
def matchStep (ops : RuleOps) (labels : Labels) (cond : MatchCondition) (i : Nat)
    (st : matchState) : Option matchState :=
  match st.backing[i]? with
  | none => some st
  | some rule =>
    if ops.Match rule labels cond then
      let matched := st.matched ++ [rule]
      if ops.TimeLeft rule ≤ 0 then
        if i + 1 ≤ st.len then
          some { backing := evictAt st.backing st.len i, len := st.len - 1, matched := matched }
        else none
      else some { st with matched := matched }
    else some st

/-- The iterations `i, i+1, ..` of the loop of `Match`, `remaining` of them. -/
def matchFrom (ops : RuleOps) (labels : Labels) (cond : MatchCondition) :
    Nat → Nat → matchState → Option matchState
  | 0, _, st => some st
  | remaining + 1, i, st =>
    match matchStep ops labels cond i st with
    | none => none
    | some st1 => matchFrom ops labels cond remaining (i + 1) st1

/-- The loop of `Match`: `for i, rule := range s.suppRules`. -/
def matchLoop (ops : RuleOps) (labels : Labels) (cond : MatchCondition)
    (suppRules : List SuppressionRule) : Option matchState :=
  matchFrom ops labels cond suppRules.length 0
    { backing := suppRules, len := suppRules.length, matched := [] }

/-- The method `Match` on the cache `suppRules`.  `sortSlice less` is
`sort.Slice` with the given `less`.  Returns the pair answered by `Match` and
the cache after the call; `none` is a run-time panic. -/
def Match (ops : RuleOps)
    (sortSlice : (SuppressionRule → SuppressionRule → Bool) →
      List SuppressionRule → List SuppressionRule)
    (suppRules : List SuppressionRule) (labels : Labels) (cond : MatchCondition) :
    Option ((SuppressionRule × Bool) × List SuppressionRule) :=
  match matchLoop ops labels cond suppRules with
  | none => none
  | some st =>
    let cache := st.backing.take st.len
    if st.matched.length > 0 then
      match sortSlice createdAfter st.matched with
      | r :: _ => some ((r, true), cache)
      | [] => none
    else some ((zeroRule, false), cache)

/-- The sort `sort.Slice` runs on a slice of fewer than twelve elements: an
insertion sort, which moves an element down while it is `less` than the element
before it. -/
def insertionSortSlice (less : SuppressionRule → SuppressionRule → Bool)
    (l : List SuppressionRule) : List SuppressionRule :=
  l.insertionSort (fun a b => less b a = false)

/-- Modelled from the spec: `models.SuppressionRule.TimeLeft`, which is not in
the handler package; `TimeLeft() = CreatedAt + Duration - now`. -/
def specTimeLeft (now : Int) (rule : SuppressionRule) : Int :=
  rule.CreatedAt + rule.Duration - now

/-- Modelled from the spec: `models.SuppressionRule.Match`, which is not in the
handler package; `Matches` is a set of key/value pairs that must all match the
labels of the alert.  The spec names no field of the rule that the condition is
compared with, so the condition is not consulted. -/
def specRuleMatch (rule : SuppressionRule) (labels : Labels) (_cond : MatchCondition) : Bool :=
  rule.Matches.all (fun kv => labels.lookup kv.1 == some kv.2)

/-- The operations of the spec at the instant `now`. -/
def specOps (now : Int) : RuleOps :=
  { Match := specRuleMatch, TimeLeft := specTimeLeft now }

/-- A rule on `env = prod`, created at `createdAt`, lasting `duration`. -/
def exRule (id createdAt duration : Int) : SuppressionRule :=
  { Id := id, Rtype := "alert", Matches := [("env", "prod")], Reason := "maintenance",
    CreatedBy := "ops", CreatedAt := createdAt, Duration := duration, DontExpire := false }

/-- A rule on `env = test`, created at `createdAt`, lasting `duration`. -/
def exOtherRule (id createdAt duration : Int) : SuppressionRule :=
  { exRule id createdAt duration with Matches := [("env", "test")] }

/-- The labels `env = prod`. -/
def exLabels : Labels := [("env", "prod")]

/-- Invariant of the loop of `Match` started on the cache `cache`: the slice
`s.suppRules` is the original cache without the matched rules that had no time
left, in the original order; every matched rule matches and comes from the
cache. -/
structure MatchInv (ops : RuleOps) (labels : Labels) (cond : MatchCondition)
    (cache : List SuppressionRule) (st : matchState) : Prop where
  hlen : st.backing.length = cache.length
  hle : st.len ≤ cache.length
  hsub : (st.backing.take st.len).Sublist cache
  hperm : cache.Perm
    (st.backing.take st.len ++ st.matched.filter (fun r => decide (ops.TimeLeft r ≤ 0)))
  hmatched : ∀ r ∈ st.matched, ops.Match r labels cond = true ∧ r ∈ cache
  hmem : ∀ r ∈ st.backing, r ∈ cache

/-! ## suppress.go: storage operations -/

/-- A value of type `int64` after an arithmetic operation: the result wraps. -/
def wrapInt64 (x : Int) : Int := (x + 2 ^ 63) % 2 ^ 64 - 2 ^ 63

/-- The duration `time.Second`, in nanoseconds. -/
def Second : Int := 1000000000

/-- The two methods of `models.Alert` that the suppressor calls.  They belong to
the models package; the handler code is checked for any such pair. -/
structure AlertOps where
  Suppress : Alert → Int → Alert
  Unsuppress : Alert → Alert

/-- The answers of the storage transaction (`models.Txn`) during one call of the
handler.  Each method is called at most once in a call, so an answer is a
function of the arguments.  A failing method answers with its error alone (the
zero value comes with it); `UpdateAlert` answers `none` when it succeeds.  The
storage reads the alert or rule it is handed and leaves it as it is. -/
structure Txn where
  GetAlert : Int → Except String Alert
  UpdateAlert : Alert → Option String
  NewSuppRule : SuppressionRule → Except String Int
  SelectRules : Except String (List SuppressionRule)

/-- One call of a method of the transaction, with its argument. -/
inductive TxCall where
  | GetAlert (id : Int)
  | UpdateAlert (alert : Alert)
  | NewSuppRule (rule : SuppressionRule)
  | SelectRules
  deriving DecidableEq, Repr

/-- Outcome of `SaveRule`: the error returned, the cache after the call and the
calls made on the transaction. -/
structure SaveResult where
  err : Option String
  suppRules : List SuppressionRule
  calls : List TxCall
  deriving DecidableEq, Repr

/-- Outcome of `SuppressAlert` and of `UnsuppressAlert`: the error returned, the
alert of the caller after the call, the cache after the call and the calls made
on the transaction. -/
structure AlertResult where
  err : Option String
  alert : Alert
  suppRules : List SuppressionRule
  calls : List TxCall
  deriving DecidableEq, Repr

/-- The method `SaveRule` on the cache `suppRules`. -/
def SaveRule (tx : Txn) (suppRules : List SuppressionRule) (rule : SuppressionRule) :
    SaveResult :=
  match tx.NewSuppRule rule with
  | Except.error err =>
    { err := some err, suppRules := suppRules, calls := [TxCall.NewSuppRule rule] }
  | Except.ok id =>
    { err := none, suppRules := suppRules ++ [{ rule with Id := id }],
      calls := [TxCall.NewSuppRule rule] }

/-- The method `SuppressAlert` on the cache `suppRules`. -/
def SuppressAlert (aops : AlertOps) (tx : Txn) (suppRules : List SuppressionRule)
    (alert : Alert) (rule : SuppressionRule) : AlertResult :=
  let alert1 := aops.Suppress alert (wrapInt64 (rule.Duration * Second))
  match tx.UpdateAlert alert1 with
  | some err =>
    { err := some ("Unable to update alert: " ++ err), alert := alert1,
      suppRules := suppRules, calls := [TxCall.UpdateAlert alert1] }
  | none =>
    let saved := SaveRule tx suppRules rule
    match saved.err with
    | some err =>
      { err := some ("Unable to save rule: " ++ err), alert := alert1,
        suppRules := saved.suppRules, calls := TxCall.UpdateAlert alert1 :: saved.calls }
    | none =>
      { err := none, alert := alert1, suppRules := saved.suppRules,
        calls := TxCall.UpdateAlert alert1 :: saved.calls }

/-- The method `UnsuppressAlert`; it does not touch the cache `suppRules`. -/
def UnsuppressAlert (aops : AlertOps) (tx : Txn) (suppRules : List SuppressionRule)
    (alert : Alert) : AlertResult :=
  match tx.GetAlert alert.Id with
  | Except.error err =>
    { err := some err, alert := alert, suppRules := suppRules,
      calls := [TxCall.GetAlert alert.Id] }
  | Except.ok existing =>
    if existing.Status ≠ AlertStatus.SUPPRESSED then
      { err := some ("Alert " ++ toString existing.Id
          ++ " has cleared or expired, not unsuppressing"),
        alert := alert, suppRules := suppRules, calls := [TxCall.GetAlert alert.Id] }
    else
      let alert1 := aops.Unsuppress alert
      match tx.UpdateAlert alert1 with
      | some err =>
        { err := some err, alert := alert1, suppRules := suppRules,
          calls := [TxCall.GetAlert alert.Id, TxCall.UpdateAlert alert1] }
      | none =>
        { err := none, alert := alert1, suppRules := suppRules,
          calls := [TxCall.GetAlert alert.Id, TxCall.UpdateAlert alert1] }

/-- One suppression rule of the static configuration
(`Config.GetSuppressionRules()`); `Matches` lists the pairs of the map in the
order `range` enumerates them. -/
structure ConfigSuppRule where
  Matches : Labels
  Rtype : String
  Reason : String
  Duration : Int
  deriving DecidableEq, Repr

/-- The rule built in the inner loop of `loadSuppRules` for one pair of a
configured rule; `newSuppRule` is the constructor `models.NewSuppRule`. -/
def configRule
    (newSuppRule : Labels → String → String → String → Int → SuppressionRule)
    (rule : ConfigSuppRule) (kv : String × String) : SuppressionRule :=
  { newSuppRule [kv] rule.Rtype rule.Reason "alert manager" rule.Duration with
    DontExpire := true }

/-- The method `loadSuppRules`: the cache after the call, given the cache
before it (which it does not read). -/
def loadSuppRules
    (newSuppRule : Labels → String → String → String → Int → SuppressionRule)
    (tx : Txn) (config : List ConfigSuppRule) (_suppRules : List SuppressionRule) :
    List SuppressionRule :=
  let rules := match tx.SelectRules with
    | Except.ok rules => rules
    | Except.error _ => []
  config.foldl
    (fun cache rule =>
      rule.Matches.foldl (fun cache kv => cache ++ [configRule newSuppRule rule kv]) cache)
    rules

/-- Modelled from the spec: the constructor `models.NewSuppRule`, which is not in
the handler package; it builds a rule from the predicate, the type, the reason,
the creator and the duration, created at `now`, with no identity yet and
`DontExpire` unset. -/
def specNewSuppRule (now : Int) (mtch : Labels) (rtype reason createdBy : String)
    (duration : Int) : SuppressionRule :=
  { Id := 0, Rtype := rtype, Matches := mtch, Reason := reason, CreatedBy := createdBy,
    CreatedAt := now, Duration := duration, DontExpire := false }

/-! ## Lock traces of the notifier -/

/-- A step of an execution of the notifier, as far as the lock is concerned. -/
inductive LockStep where
  | Lock
  | Unlock
  | Send (output : String) (event : AlertEvent)
  deriving DecidableEq, Repr

/-- The steps of `Notify`: no step when notifications are disabled (the method
returns before `n.Lock()`); otherwise `n.Lock()`, the sends of the call, and the
deferred `n.Unlock()` when the method returns. -/
def NotifyTrace (env : Env) (now : Int) (n : notifier) (event : AlertEvent) : List LockStep :=
  if (match env.GetAlertConfig event.Alert.Name with
      | some c => c.DisableNotify
      | none => false) then []
  else
    [LockStep.Lock] ++ (Notify env now n event).2.map (fun d => LockStep.Send d.1 d.2)
      ++ [LockStep.Unlock]

/-- The steps of `remind`: `n.Lock()`, the sends of the second loop, and the
deferred `n.Unlock()` when the method returns. -/
def remindTrace (env : Env) (now : Int) (n : notifier) : List LockStep :=
  [LockStep.Lock] ++ (remind env now n).2.map (fun d => LockStep.Send d.1 d.2)
    ++ [LockStep.Unlock]

/-- No send occurs while the lock is held; `held` tells whether it is held at
the start of the trace. -/
def noSendUnderLock : Bool → List LockStep → Bool
  | _, [] => true
  | _, LockStep.Lock :: rest => noSendUnderLock true rest
  | _, LockStep.Unlock :: rest => noSendUnderLock false rest
  | held, LockStep.Send _ _ :: rest => !held && noSendUnderLock held rest

/-- Every send occurs while the lock is held; `held` tells whether it is held at
the start of the trace. -/
def allSendsUnderLock : Bool → List LockStep → Bool
  | _, [] => true
  | _, LockStep.Lock :: rest => allSendsUnderLock true rest
  | _, LockStep.Unlock :: rest => allSendsUnderLock false rest
  | held, LockStep.Send _ _ :: rest => held && allSendsUnderLock held rest

/-! ## Example data -/

/-- A policy with a notify delay, a reminder every two minutes, notify on clear
and two outputs. -/
def exConfig : AlertConfig :=
  { DisableNotify := false, NotifyDelay := 5, NotifyRemind := twoMinutes,
    NotifyOnClear := true, Outputs := ["slack", "pager"] }

/-- A policy that disables notifications. -/
def exQuietConfig : AlertConfig :=
  { DisableNotify := true, NotifyDelay := 0, NotifyRemind := 0,
    NotifyOnClear := false, Outputs := [] }

/-- An environment: configs for the names `disk` and `quiet`, queues for the
outputs `slack` and `email` (none for `pager`), default output `email`. -/
def exEnv : Env :=
  { GetAlertConfig := fun name =>
      if name = "disk" then some exConfig
      else if name = "quiet" then some exQuietConfig
      else none
    Outputs := fun o => o == "slack" || o == "email"
    DefaultOutput := "email" }

/-- An alert named `disk`, active for 10ns. -/
def exAlert : Alert :=
  { Id := 7, Name := "disk", Status := AlertStatus.ACTIVE, StartTime := 0, LastActive := 10 }

/-- An ACTIVE event of `exAlert`. -/
def exActive : AlertEvent := ⟨exAlert, EventType.ACTIVE⟩

/-- A later ACTIVE event of the same alert. -/
def exActiveAgain : AlertEvent := ⟨{ exAlert with LastActive := 20 }, EventType.ACTIVE⟩

/-- An ACTIVE event of the same alert, active for 3ns only. -/
def exFresh : AlertEvent := ⟨{ exAlert with LastActive := 3 }, EventType.ACTIVE⟩

/-- A SUPPRESSED event of the same alert. -/
def exSuppressed : AlertEvent :=
  ⟨{ exAlert with Status := AlertStatus.SUPPRESSED }, EventType.SUPPRESSED⟩

/-- A CLEARED event of the same alert. -/
def exCleared : AlertEvent :=
  ⟨{ exAlert with Status := AlertStatus.CLEARED }, EventType.CLEARED⟩

/-- An ACTIVE event of an alert whose policy disables notifications. -/
def exQuiet : AlertEvent :=
  ⟨{ Id := 8, Name := "quiet", Status := AlertStatus.ACTIVE, StartTime := 0, LastActive := 10 },
    EventType.ACTIVE⟩

/-- The empty notifier. -/
def exEmpty : notifier := ⟨[]⟩

/-- A notifier tracking `exAlert`, notified at instant 100. -/
def exTracking : notifier := ⟨[(7, ⟨exActive, 100⟩)]⟩

/-- An alert named `cpu`, for which `exEnv` has no config. -/
def exBareAlert : Alert :=
  { Id := 9, Name := "cpu", Status := AlertStatus.CLEARED, StartTime := 0, LastActive := 10 }

/-- A CLEARED event of `exBareAlert`. -/
def exBareCleared : AlertEvent := ⟨exBareAlert, EventType.CLEARED⟩

/-- The methods of `models.Alert`, as far as the status goes: `Suppress` sets
the status SUPPRESSED, `Unsuppress` sets it back to ACTIVE. -/
def exAlertOps : AlertOps :=
  { Suppress := fun a _ => { a with Status := AlertStatus.SUPPRESSED }
    Unsuppress := fun a => { a with Status := AlertStatus.ACTIVE } }

/-- A transaction in which alert 7 is stored as SUPPRESSED and every write
succeeds; a new rule gets the id 42. -/
def exTx : Txn :=
  { GetAlert := fun id =>
      if id = 7 then Except.ok { exAlert with Status := AlertStatus.SUPPRESSED }
      else Except.error "No alert found"
    UpdateAlert := fun _ => none
    NewSuppRule := fun _ => Except.ok 42
    SelectRules := Except.ok [exRule 1 1 10] }

/-- A transaction in which every method fails. -/
def exFailingTx : Txn :=
  { GetAlert := fun _ => Except.error "db down"
    UpdateAlert := fun _ => some "db down"
    NewSuppRule := fun _ => Except.error "db down"
    SelectRules := Except.error "db down" }

/-- A configured suppression rule with two pairs. -/
def exConfigRule : ConfigSuppRule :=
  { Matches := [("env", "test"), ("team", "db")], Rtype := "alert", Reason := "lab",
    Duration := 0 }

/-! ## Theorems: notify.go -/

theorem send_foldl_aux (env : Env) (event : AlertEvent) (outs : List String)
    (acc : List Delivery) :
    outs.foldl
      (fun sent output => if env.Outputs output then sent ++ [(output, event)] else sent) acc
      = acc ++ deliveriesTo env event outs := by
  induction outs generalizing acc with
  | nil => simp [deliveriesTo]
  | cons o rest ih =>
    simp only [List.foldl_cons]
    rw [ih]
    by_cases h : env.Outputs o = true
    · simp [deliveriesTo, h]
    · simp [deliveriesTo, h]

theorem send_eq (env : Env) (event : AlertEvent) (outputs : List String) :
    send env event outputs
      = deliveriesTo env event (if outputs = [] then [env.DefaultOutput] else outputs) := by
  unfold send
  simp only [send_foldl_aux, List.nil_append]
  cases outputs with
  | nil => simp
  | cons o rest => simp

theorem sendFor_eq (env : Env) (cfg : Option AlertConfig) (event : AlertEvent) :
    sendFor env cfg event = deliveriesTo env event (selectedOutputs env cfg) := by
  cases cfg with
  | none => simp [sendFor, selectedOutputs, send_eq]
  | some c => simp [sendFor, selectedOutputs, send_eq]

theorem mapGet_append_of_none (m : NotifMap) (id : Int) (v : notification)
    (h : mapGet m id = none) : mapGet (m ++ [(id, v)]) id = some v := by
  induction m with
  | nil => simp [mapGet]
  | cons kv rest ih =>
    obtain ⟨k, w⟩ := kv
    by_cases hk : k = id
    · simp [mapGet, hk] at h
    · simp only [mapGet, hk, if_false] at h
      simp [mapGet, hk, ih h]

theorem mapSet_of_none (m : NotifMap) (id : Int) (v : notification)
    (h : mapGet m id = none) : mapSet m id v = m ++ [(id, v)] := by
  simp [mapSet, h]

theorem mapGet_mapDelete_self (m : NotifMap) (id : Int) : mapGet (mapDelete m id) id = none := by
  induction m with
  | nil => simp [mapDelete, mapGet]
  | cons kv rest ih =>
    obtain ⟨k, w⟩ := kv
    by_cases hk : k = id
    · simpa [mapDelete, hk] using ih
    · have : mapGet (mapDelete rest id) id = none := ih
      simp [mapDelete, mapGet, hk] at this ⊢
      exact this

theorem mapModify_cons (k : Int) (w : notification) (rest : NotifMap) (id : Int)
    (f : notification → notification) :
    mapModify ((k, w) :: rest) id f
      = (if k = id then (k, f w) else (k, w)) :: mapModify rest id f := rfl

theorem mapGet_mapModify_self (m : NotifMap) (id : Int) (f : notification → notification) :
    mapGet (mapModify m id f) id = (mapGet m id).map f := by
  induction m with
  | nil => simp [mapModify, mapGet]
  | cons kv rest ih =>
    obtain ⟨k, w⟩ := kv
    by_cases hk : k = id
    · rw [mapModify_cons, if_pos hk]
      simp [mapGet, hk]
    · rw [mapModify_cons, if_neg hk]
      simp [mapGet, hk, ih]

theorem mapKeys_mapModify (m : NotifMap) (id : Int) (f : notification → notification) :
    mapKeys (mapModify m id f) = mapKeys m := by
  induction m with
  | nil => simp [mapModify, mapKeys]
  | cons kv rest ih =>
    obtain ⟨k, w⟩ := kv
    have : mapKeys (mapModify rest id f) = mapKeys rest := ih
    by_cases hk : k = id
    · rw [mapModify_cons, if_pos hk]
      simp only [mapKeys, List.map_cons] at this ⊢
      rw [this]
    · rw [mapModify_cons, if_neg hk]
      simp only [mapKeys, List.map_cons] at this ⊢
      rw [this]

/-- C8. Disabled notifications are a no-op: when a config is found for the
alert's name and its `DisableNotify` is set, `Notify` delivers nothing and
returns the record map it was given, for an event of any type. -/
theorem Notify_disabled_noop (env : Env) (now : Int) (n : notifier) (event : AlertEvent)
    (c : AlertConfig) (hc : env.GetAlertConfig event.Alert.Name = some c)
    (hd : c.DisableNotify = true) :
    Notify env now n event = (n, []) := by
  simp [Notify, hc, hd]

/-- C10. Output routing: `send event outputs` delivers the event exactly once
for each entry, in order, of the list `L` that has a registered queue, and
nothing else, where `L` is `[DefaultOutput]` when `outputs` is empty and
`outputs` otherwise.  A name without a queue produces no delivery, and a
non-empty list of names without queues produces no delivery at all. -/
theorem send_routing (env : Env) (event : AlertEvent) (outputs : List String) :
    send env event outputs
        = ((if outputs = [] then [env.DefaultOutput] else outputs).filter env.Outputs).map
            (fun o => (o, event))
      ∧ (∀ d ∈ send env event outputs, env.Outputs d.1 = true ∧ d.2 = event)
      ∧ (outputs ≠ [] → (∀ o ∈ outputs, env.Outputs o = false) → send env event outputs = []) := by
  have h := send_eq env event outputs
  refine ⟨h, ?_, ?_⟩
  · intro d hd
    rw [h] at hd
    simp only [deliveriesTo, List.mem_map, List.mem_filter] at hd
    obtain ⟨o, ⟨_, ho⟩, rfl⟩ := hd
    exact ⟨ho, rfl⟩
  · intro hne hall
    rw [h, if_neg hne]
    simp only [deliveriesTo, List.map_eq_nil_iff, List.filter_eq_nil_iff]
    intro o ho
    simp [hall o ho]

/-- C7. Notify-delay gate on ACTIVE: with no record for the alert's id and
notifications not disabled, an ACTIVE event whose alert has a config and whose
`LastActive.Sub(StartTime)` is below `NotifyDelay` delivers nothing and leaves
the record map as it is; otherwise `Notify` adds a record for the id holding
this event with `lastNotified = now` and delivers the event to the selected
outputs. -/
theorem Notify_active_delay_gate (env : Env) (now : Int) (n : notifier) (event : AlertEvent)
    (ht : event.Typ = EventType.ACTIVE)
    (hrec : mapGet n.notifiedAlerts event.Alert.Id = none)
    (hdis : ∀ c, env.GetAlertConfig event.Alert.Name = some c → c.DisableNotify = false) :
    ((∃ c, env.GetAlertConfig event.Alert.Name = some c
          ∧ Sub event.Alert.LastActive event.Alert.StartTime < c.NotifyDelay) →
        Notify env now n event = (n, []))
      ∧ ((¬ ∃ c, env.GetAlertConfig event.Alert.Name = some c
          ∧ Sub event.Alert.LastActive event.Alert.StartTime < c.NotifyDelay) →
        (Notify env now n event).1.notifiedAlerts
            = n.notifiedAlerts ++ [(event.Alert.Id, ⟨event, now⟩)]
          ∧ mapGet (Notify env now n event).1.notifiedAlerts event.Alert.Id
            = some ⟨event, now⟩
          ∧ (Notify env now n event).2
            = deliveriesTo env event
                (selectedOutputs env (env.GetAlertConfig event.Alert.Name))) := by
  constructor
  · rintro ⟨c, hc, hlt⟩
    simp [Notify, hc, hdis c hc, ht, hrec, hlt]
  · intro hno
    have hset := mapSet_of_none n.notifiedAlerts event.Alert.Id ⟨event, now⟩ hrec
    have hget := mapGet_append_of_none n.notifiedAlerts event.Alert.Id ⟨event, now⟩ hrec
    cases hc : env.GetAlertConfig event.Alert.Name with
    | none =>
      simp [Notify, hc, ht, hrec, hset, hget, sendFor_eq]
    | some c =>
      have hge : ¬ Sub event.Alert.LastActive event.Alert.StartTime < c.NotifyDelay :=
        fun hlt => hno ⟨c, hc, hlt⟩
      simp [Notify, hc, hdis c hc, ht, hrec, hset, hget, sendFor_eq, hge]

/-- C1. Notification idempotence: from a state with no record for the id, an
ACTIVE event `e1` (notifications not disabled, notify delay passed) followed by
an ACTIVE event `e2` for the same id: the first call delivers `e1` once to each
selected output with a queue, the second call delivers nothing and returns the
record map of the first call.  With one such output the two calls make exactly
one delivery.  No assumption on the policy of `e2` is needed. -/
theorem Notify_active_idempotent (env : Env) (now1 now2 : Int) (n : notifier)
    (e1 e2 : AlertEvent)
    (ht1 : e1.Typ = EventType.ACTIVE) (ht2 : e2.Typ = EventType.ACTIVE)
    (hid : e2.Alert.Id = e1.Alert.Id)
    (hrec : mapGet n.notifiedAlerts e1.Alert.Id = none)
    (hdis : ∀ c, env.GetAlertConfig e1.Alert.Name = some c → c.DisableNotify = false)
    (hdelay : ∀ c, env.GetAlertConfig e1.Alert.Name = some c →
      ¬ Sub e1.Alert.LastActive e1.Alert.StartTime < c.NotifyDelay) :
    (Notify env now1 n e1).2
        = deliveriesTo env e1 (selectedOutputs env (env.GetAlertConfig e1.Alert.Name))
      ∧ Notify env now2 (Notify env now1 n e1).1 e2 = ((Notify env now1 n e1).1, [])
      ∧ (∀ o, (selectedOutputs env (env.GetAlertConfig e1.Alert.Name)).filter env.Outputs = [o] →
          (Notify env now1 n e1).2 ++ (Notify env now2 (Notify env now1 n e1).1 e2).2
            = [(o, e1)]) := by
  have hset := mapSet_of_none n.notifiedAlerts e1.Alert.Id ⟨e1, now1⟩ hrec
  have hget := mapGet_append_of_none n.notifiedAlerts e1.Alert.Id ⟨e1, now1⟩ hrec
  have h1 : Notify env now1 n e1
      = (⟨n.notifiedAlerts ++ [(e1.Alert.Id, ⟨e1, now1⟩)]⟩,
          deliveriesTo env e1 (selectedOutputs env (env.GetAlertConfig e1.Alert.Name))) := by
    cases hc : env.GetAlertConfig e1.Alert.Name with
    | none => simp [Notify, hc, ht1, hrec, hset, sendFor_eq]
    | some c =>
      have hge := hdelay c hc
      simp [Notify, hc, hdis c hc, ht1, hrec, hset, sendFor_eq, hge]
  have h2 : Notify env now2 (Notify env now1 n e1).1 e2 = ((Notify env now1 n e1).1, []) := by
    rw [h1]
    cases hc2 : env.GetAlertConfig e2.Alert.Name with
    | none => simp [Notify, hc2, ht2, hid, hget]
    | some c2 =>
      by_cases hd2 : c2.DisableNotify = true
      · simp [Notify, hc2, hd2]
      · simp [Notify, hc2, hd2, ht2, hid, hget]
  refine ⟨by rw [h1], h2, ?_⟩
  intro o ho
  rw [h2, h1]
  simp [deliveriesTo, ho]

/-- C5. Notify on SUPPRESSED or ESCALATED, notifications not disabled: when a
record exists for the alert's id, its stored event becomes the new event, its
`lastNotified` and the tracked ids stay as they are and nothing is delivered;
when no record exists, the record map is returned as it is (no record is
created) and the event is delivered to the outputs of the policy, or to the
default output when the policy is absent or lists no outputs. -/
theorem Notify_suppressed_escalated (env : Env) (now : Int) (n : notifier) (event : AlertEvent)
    (ht : event.Typ = EventType.SUPPRESSED ∨ event.Typ = EventType.ESCALATED)
    (hdis : ∀ c, env.GetAlertConfig event.Alert.Name = some c → c.DisableNotify = false) :
    (∀ old, mapGet n.notifiedAlerts event.Alert.Id = some old →
        mapGet (Notify env now n event).1.notifiedAlerts event.Alert.Id
            = some ⟨event, old.lastNotified⟩
          ∧ mapKeys (Notify env now n event).1.notifiedAlerts = mapKeys n.notifiedAlerts
          ∧ (Notify env now n event).2 = [])
      ∧ (mapGet n.notifiedAlerts event.Alert.Id = none →
        Notify env now n event
          = (n, deliveriesTo env event
              (selectedOutputs env (env.GetAlertConfig event.Alert.Name)))) := by
  have hnd : (match env.GetAlertConfig event.Alert.Name with
      | some c => c.DisableNotify
      | none => false) = false := by
    cases hc : env.GetAlertConfig event.Alert.Name with
    | none => rfl
    | some c => simpa using hdis c hc
  constructor
  · intro old hold
    have hN : Notify env now n event
        = (⟨mapModify n.notifiedAlerts event.Alert.Id
              (fun notif => { notif with event := event })⟩, []) := by
      rcases ht with ht | ht <;> simp [Notify, hnd, ht, hold]
    rw [hN]
    refine ⟨?_, ?_, rfl⟩
    · simp [mapGet_mapModify_self, hold]
    · dsimp only
      rw [mapKeys_mapModify]
  · intro hnone
    rcases ht with ht | ht <;> simp [Notify, hnd, ht, hnone, sendFor_eq]

/-- C6. Notify on CLEARED or EXPIRED, notifications not disabled: after the call
no record exists for the alert's id.  A CLEARED event is delivered to the
selected outputs when a config is found and its `NotifyOnClear` is set, and
nothing is delivered otherwise.  An EXPIRED event is always delivered to the
selected outputs. -/
theorem Notify_cleared_expired (env : Env) (now : Int) (n : notifier) (event : AlertEvent)
    (ht : event.Typ = EventType.CLEARED ∨ event.Typ = EventType.EXPIRED)
    (hdis : ∀ c, env.GetAlertConfig event.Alert.Name = some c → c.DisableNotify = false) :
    mapGet (Notify env now n event).1.notifiedAlerts event.Alert.Id = none
      ∧ (event.Typ = EventType.CLEARED →
          ((∃ c, env.GetAlertConfig event.Alert.Name = some c ∧ c.NotifyOnClear = true) →
            (Notify env now n event).2
              = deliveriesTo env event
                  (selectedOutputs env (env.GetAlertConfig event.Alert.Name)))
          ∧ ((¬ ∃ c, env.GetAlertConfig event.Alert.Name = some c ∧ c.NotifyOnClear = true) →
            (Notify env now n event).2 = []))
      ∧ (event.Typ = EventType.EXPIRED →
          (Notify env now n event).2
            = deliveriesTo env event
                (selectedOutputs env (env.GetAlertConfig event.Alert.Name))) := by
  have hnd : (match env.GetAlertConfig event.Alert.Name with
      | some c => c.DisableNotify
      | none => false) = false := by
    cases hc : env.GetAlertConfig event.Alert.Name with
    | none => rfl
    | some c => simpa using hdis c hc
  have hstate : (Notify env now n event).1.notifiedAlerts
      = mapDelete n.notifiedAlerts event.Alert.Id := by
    rcases ht with ht | ht
    · by_cases hb : (!match env.GetAlertConfig event.Alert.Name with
          | some c => c.NotifyOnClear
          | none => false) = true
      · simp [Notify, hnd, ht, hb]
      · simp [Notify, hnd, ht, hb]
    · simp [Notify, hnd, ht]
  refine ⟨by rw [hstate]; exact mapGet_mapDelete_self _ _, ?_, ?_⟩
  · intro htc
    constructor
    · rintro ⟨c, hc, hon⟩
      simp [Notify, hc, hdis c hc, htc, hon, sendFor_eq]
    · intro hno
      cases hc : env.GetAlertConfig event.Alert.Name with
      | none => simp [Notify, hc, htc]
      | some c =>
        have hoff : c.NotifyOnClear = false := by
          cases hv : c.NotifyOnClear with
          | false => rfl
          | true => exact absurd ⟨c, hc, hv⟩ hno
        simp [Notify, hc, hdis c hc, htc, hoff]
  · intro hte
    simp [Notify, hnd, hte, sendFor_eq]

/-! ### remind -/

theorem remindCollect_aux (env : Env) (now : Int) (m : NotifMap) (acc : List Int) :
    m.foldl (fun toNotify kv => if remindDue env now kv.2 then toNotify ++ [kv.1] else toNotify)
        acc
      = acc ++ (m.filter (fun kv => remindDue env now kv.2)).map Prod.fst := by
  induction m generalizing acc with
  | nil => simp
  | cons kv rest ih =>
    simp only [List.foldl_cons]
    rw [ih]
    by_cases h : remindDue env now kv.2 = true
    · simp [h]
    · simp [h]

theorem remindCollect_eq (env : Env) (now : Int) (m : NotifMap) :
    remindCollect env now m = (m.filter (fun kv => remindDue env now kv.2)).map Prod.fst := by
  unfold remindCollect
  rw [remindCollect_aux]
  simp

theorem mapGet_mapModify_ne (m : NotifMap) (a b : Int) (f : notification → notification)
    (h : a ≠ b) : mapGet (mapModify m a f) b = mapGet m b := by
  induction m with
  | nil => simp [mapModify, mapGet]
  | cons kv rest ih =>
    obtain ⟨k, w⟩ := kv
    by_cases hk : k = a
    · rw [mapModify_cons, if_pos hk]
      have hkb : k ≠ b := fun e => h (hk ▸ e)
      simp [mapGet, hkb, ih]
    · rw [mapModify_cons, if_neg hk]
      by_cases hkb : k = b
      · simp [mapGet, hkb]
      · simp [mapGet, hkb, ih]

theorem mapGet_isSome_of_mem_keys (m : NotifMap) (a : Int) (h : a ∈ mapKeys m) :
    ∃ v, mapGet m a = some v := by
  induction m with
  | nil => simp [mapKeys] at h
  | cons kv rest ih =>
    obtain ⟨k, w⟩ := kv
    by_cases hk : k = a
    · exact ⟨w, by simp [mapGet, hk]⟩
    · have hmem : a ∈ mapKeys rest := by
        simp only [mapKeys, List.map_cons, List.mem_cons] at h
        rcases h with h | h
        · exact absurd h.symm hk
        · exact h
      obtain ⟨v, hv⟩ := ih hmem
      exact ⟨v, by simp [mapGet, hk, hv]⟩

theorem mapGet_of_mem (m : NotifMap) (kv : Int × notification) (hwf : (mapKeys m).Nodup)
    (h : kv ∈ m) : mapGet m kv.1 = some kv.2 := by
  induction m with
  | nil => simp at h
  | cons x rest ih =>
    obtain ⟨k, w⟩ := x
    simp only [mapKeys, List.map_cons, List.nodup_cons] at hwf
    rcases List.mem_cons.mp h with h | h
    · subst h
      simp [mapGet]
    · have hne : k ≠ kv.1 := by
        intro e
        apply hwf.1
        rw [e]
        exact List.mem_map_of_mem Prod.fst h
      simp only [mapGet, hne, if_false]
      exact ih hwf.2 h

/-- The second loop of `remind` over any list of distinct tracked ids. -/
theorem remind_loop (env : Env) (now : Int) (ids : List Int) (cur : NotifMap)
    (acc : List Delivery) (hnd : ids.Nodup) (hkeys : ∀ a ∈ ids, a ∈ mapKeys cur) :
    ids.foldl (remindOne env now) (⟨cur⟩, acc)
      = (⟨cur.map (fun kv =>
            if kv.1 ∈ ids then (kv.1, { kv.2 with lastNotified := now }) else kv)⟩,
          acc ++ ids.flatMap (fun a =>
            match mapGet cur a with
            | some notif =>
              deliveriesTo env notif.event
                (selectedOutputs env (env.GetAlertConfig notif.event.Alert.Name))
            | none => [])) := by
  induction ids generalizing cur acc with
  | nil => simp
  | cons a rest ih =>
    obtain ⟨v, hv⟩ := mapGet_isSome_of_mem_keys cur a (hkeys a (List.mem_cons_self a rest))
    have hnd2 := List.nodup_cons.mp hnd
    simp only [List.foldl_cons]
    have hstep : remindOne env now (⟨cur⟩, acc) a
        = (⟨mapModify cur a (fun r => { r with lastNotified := now })⟩,
            acc ++ deliveriesTo env v.event
              (selectedOutputs env (env.GetAlertConfig v.event.Alert.Name))) := by
      simp [remindOne, hv, sendFor_eq]
    rw [hstep, ih _ _ hnd2.2]
    · congr 1
      · congr 1
        unfold mapModify
        rw [List.map_map]
        apply List.map_congr_left
        intro kv _
        by_cases hka : kv.1 = a
        · have hnr : kv.1 ∉ rest := hka ▸ hnd2.1
          simp [hka, hnd2.1]
        · simp [hka]
      · simp only [List.flatMap_cons, hv, List.append_assoc]
        congr 2
        apply List.flatMap_congr
        intro b hb
        have hab : a ≠ b := fun e => hnd2.1 (e ▸ hb)
        rw [mapGet_mapModify_ne _ _ _ _ hab]
    · intro b hb
      rw [mapKeys_mapModify]
      exact hkeys b (List.mem_cons_of_mem a hb)

theorem remind_eq (env : Env) (now : Int) (n : notifier) (hwf : (mapKeys n.notifiedAlerts).Nodup) :
    remind env now n
      = (⟨n.notifiedAlerts.map (remindMark env now)⟩,
          (n.notifiedAlerts.filter (fun kv => remindDue env now kv.2)).flatMap (fun kv =>
            deliveriesTo env kv.2.event
              (selectedOutputs env (env.GetAlertConfig kv.2.event.Alert.Name)))) := by
  obtain ⟨m⟩ := n
  simp only at hwf
  have hsub : ((m.filter (fun kv => remindDue env now kv.2)).map Prod.fst).Sublist (mapKeys m) :=
    (List.filter_sublist m).map Prod.fst
  have hmem : ∀ kv ∈ m,
      (kv.1 ∈ (m.filter (fun kv => remindDue env now kv.2)).map Prod.fst
        ↔ remindDue env now kv.2 = true) := by
    intro kv hkv
    constructor
    · intro h
      obtain ⟨kv2, hkv2, he⟩ := List.mem_map.mp h
      have hm2 := (List.mem_filter.mp hkv2)
      have h1 := mapGet_of_mem m kv hwf hkv
      have h2 := mapGet_of_mem m kv2 hwf hm2.1
      rw [he, h1] at h2
      have : kv.2 = kv2.2 := Option.some.inj h2
      rw [this]
      exact hm2.2
    · intro h
      exact List.mem_map.mpr ⟨kv, List.mem_filter.mpr ⟨hkv, h⟩, rfl⟩
  unfold remind
  rw [remindCollect_eq]
  simp only
  rw [remind_loop env now _ m [] (hsub.nodup hwf) (fun a ha => hsub.subset ha)]
  congr 1
  · congr 1
    apply List.map_congr_left
    intro kv hkv
    unfold remindMark
    by_cases hd : remindDue env now kv.2 = true
    · simp [hd, (hmem kv hkv).mpr hd]
    · have : kv.1 ∉ (m.filter (fun kv => remindDue env now kv.2)).map Prod.fst :=
        fun h => hd ((hmem kv hkv).mp h)
      simp [hd, this]
  · rw [List.nil_append, List.flatMap_map]
    apply List.flatMap_congr
    intro kv hkv
    rw [mapGet_of_mem m kv hwf (List.mem_filter.mp hkv).1]

theorem remindDue_iff (env : Env) (now : Int) (notif : notification) :
    remindDue env now notif = true
      ↔ (notif.event.Alert.Status ≠ AlertStatus.SUPPRESSED
          ∧ ∃ c, env.GetAlertConfig notif.event.Alert.Name = some c
            ∧ c.NotifyRemind ≠ 0 ∧ Sub now notif.lastNotified ≥ c.NotifyRemind) := by
  unfold remindDue
  by_cases hs : notif.event.Alert.Status = AlertStatus.SUPPRESSED
  · simp [hs]
  · cases hc : env.GetAlertConfig notif.event.Alert.Name with
    | none => simp [hs]
    | some c =>
      by_cases hz : c.NotifyRemind = 0
      · simp [hs, hz]
      · simp [hs, hz]

theorem Sub_ge_twoMinutes (now t : Int) : Sub now t ≥ twoMinutes ↔ t + twoMinutes ≤ now := by
  unfold Sub twoMinutes minDuration maxDuration
  split_ifs <;> constructor <;> intro h <;> omega

/-- C9. Reminder selection and effect, on a well-formed record map: `remind`
sets `lastNotified = now` on the due records and leaves every other record as it
is; it delivers, record by record, the stored event of each due record to the
selected outputs and nothing else; the tracked ids and the stored events are the
same after as before.  A record is due exactly when the status of its stored
alert is not SUPPRESSED, a config is found for the alert's name, its
`NotifyRemind` is not zero and `now.Sub(lastNotified) >= NotifyRemind`.  Hence a
record with `NotifyRemind` of two minutes, last notified at `T`, gets no send
from a run before `T + 2m` and one send per selected output with a queue from a
run at or after `T + 2m`. -/
theorem remind_selection (env : Env) (now : Int) (n : notifier)
    (hwf : (mapKeys n.notifiedAlerts).Nodup) :
    (remind env now n).1.notifiedAlerts = n.notifiedAlerts.map (remindMark env now)
      ∧ (remind env now n).2
        = (n.notifiedAlerts.filter (fun kv => remindDue env now kv.2)).flatMap (fun kv =>
            deliveriesTo env kv.2.event
              (selectedOutputs env (env.GetAlertConfig kv.2.event.Alert.Name)))
      ∧ mapKeys (remind env now n).1.notifiedAlerts = mapKeys n.notifiedAlerts
      ∧ (remind env now n).1.notifiedAlerts.map (fun kv => kv.2.event)
        = n.notifiedAlerts.map (fun kv => kv.2.event)
      ∧ (∀ notif, remindDue env now notif = true
          ↔ (notif.event.Alert.Status ≠ AlertStatus.SUPPRESSED
            ∧ ∃ c, env.GetAlertConfig notif.event.Alert.Name = some c
              ∧ c.NotifyRemind ≠ 0 ∧ Sub now notif.lastNotified ≥ c.NotifyRemind))
      ∧ (∀ (id : Int) (ev : AlertEvent) (T : Int) (c : AlertConfig),
          env.GetAlertConfig ev.Alert.Name = some c → c.NotifyRemind = twoMinutes →
          ev.Alert.Status ≠ AlertStatus.SUPPRESSED →
          (now < T + twoMinutes →
              remind env now ⟨[(id, ⟨ev, T⟩)]⟩ = (⟨[(id, ⟨ev, T⟩)]⟩, []))
            ∧ (T + twoMinutes ≤ now →
              remind env now ⟨[(id, ⟨ev, T⟩)]⟩
                = (⟨[(id, ⟨ev, now⟩)]⟩, deliveriesTo env ev (selectedOutputs env (some c))))) := by
  have h := remind_eq env now n hwf
  refine ⟨by rw [h], by rw [h], ?_, ?_, remindDue_iff env now, ?_⟩
  · rw [h]
    simp only [mapKeys, List.map_map]
    apply List.map_congr_left
    intro kv _
    simp only [Function.comp, remindMark]
    split <;> rfl
  · rw [h]
    simp only [List.map_map]
    apply List.map_congr_left
    intro kv _
    simp only [Function.comp, remindMark]
    split <;> rfl
  · intro id ev T c hc hr hs
    have hone : (mapKeys (⟨[(id, ⟨ev, T⟩)]⟩ : notifier).notifiedAlerts).Nodup := by
      simp [mapKeys]
    have h1 := remind_eq env now ⟨[(id, ⟨ev, T⟩)]⟩ hone
    have hdue : remindDue env now ⟨ev, T⟩ = decide (T + twoMinutes ≤ now) := by
      have h2m : twoMinutes ≠ 0 := by decide
      have := Sub_ge_twoMinutes now T
      by_cases hle : T + twoMinutes ≤ now
      · simp [remindDue, hs, hc, hr, h2m, hle, this.mpr hle]
      · have hlt : ¬ Sub now T ≥ twoMinutes := fun hge => hle (this.mp hge)
        simp only [ge_iff_le] at hlt
        simp [remindDue, hs, hc, hr, h2m, hle, hlt]
    constructor
    · intro hlt
      have hf : remindDue env now ⟨ev, T⟩ = false := by
        rw [hdue]
        exact decide_eq_false (by omega)
      rw [h1]
      simp [remindMark, hf]
    · intro hle
      have ht : remindDue env now ⟨ev, T⟩ = true := by
        rw [hdue]
        exact decide_eq_true hle
      rw [h1]
      simp [remindMark, ht, hc]

/-! ### Instances on the example data -/

theorem exEnv_disk : exEnv.GetAlertConfig "disk" = some exConfig := by decide

theorem exEnv_disk_enabled (c : AlertConfig) (hc : exEnv.GetAlertConfig "disk" = some c) :
    c.DisableNotify = false := by
  rw [exEnv_disk] at hc
  cases hc
  rfl

theorem exEnv_disk_delay (c : AlertConfig) (hc : exEnv.GetAlertConfig "disk" = some c) :
    ¬ Sub 10 0 < c.NotifyDelay := by
  rw [exEnv_disk] at hc
  cases hc
  decide

theorem Notify_disabled_noop_witness :
    exEnv.GetAlertConfig exQuiet.Alert.Name = some exQuietConfig
      ∧ exQuietConfig.DisableNotify = true
      ∧ Notify exEnv 200 exTracking exQuiet = (exTracking, []) :=
  ⟨by decide, rfl,
    Notify_disabled_noop exEnv 200 exTracking exQuiet exQuietConfig (by decide) rfl⟩

theorem send_routing_witness :
    (["pager"] : List String) ≠ []
      ∧ (∀ o ∈ (["pager"] : List String), exEnv.Outputs o = false)
      ∧ send exEnv exActive ["pager"] = [] :=
  ⟨by decide, by decide,
    (send_routing exEnv exActive ["pager"]).2.2 (by decide) (by decide)⟩

theorem Notify_active_delay_gate_witness :
    exActive.Typ = EventType.ACTIVE
      ∧ mapGet exEmpty.notifiedAlerts exActive.Alert.Id = none
      ∧ (Notify exEnv 100 exEmpty exActive).1.notifiedAlerts = [(7, ⟨exActive, 100⟩)]
      ∧ (Notify exEnv 100 exEmpty exActive).2
        = deliveriesTo exEnv exActive (selectedOutputs exEnv (exEnv.GetAlertConfig "disk"))
      ∧ Sub exFresh.Alert.LastActive exFresh.Alert.StartTime < exConfig.NotifyDelay
      ∧ Notify exEnv 100 exEmpty exFresh = (exEmpty, []) :=
  have h := (Notify_active_delay_gate exEnv 100 exEmpty exActive rfl rfl exEnv_disk_enabled).2
    (by
      rintro ⟨c, hc, hlt⟩
      exact exEnv_disk_delay c hc hlt)
  have hf := (Notify_active_delay_gate exEnv 100 exEmpty exFresh rfl rfl exEnv_disk_enabled).1
    ⟨exConfig, exEnv_disk, by decide⟩
  ⟨rfl, rfl, h.1, h.2.2, by decide, hf⟩

theorem Notify_active_idempotent_witness :
    exActive.Typ = EventType.ACTIVE ∧ exActiveAgain.Typ = EventType.ACTIVE
      ∧ exActiveAgain.Alert.Id = exActive.Alert.Id
      ∧ mapGet exEmpty.notifiedAlerts exActive.Alert.Id = none
      ∧ Notify exEnv 150 (Notify exEnv 100 exEmpty exActive).1 exActiveAgain
        = ((Notify exEnv 100 exEmpty exActive).1, [])
      ∧ (Notify exEnv 100 exEmpty exActive).2
          ++ (Notify exEnv 150 (Notify exEnv 100 exEmpty exActive).1 exActiveAgain).2
        = [("slack", exActive)] :=
  have h := Notify_active_idempotent exEnv 100 150 exEmpty exActive exActiveAgain rfl rfl rfl rfl
    exEnv_disk_enabled exEnv_disk_delay
  ⟨rfl, rfl, rfl, rfl, h.2.1, h.2.2 "slack" (by decide)⟩

theorem Notify_suppressed_escalated_witness :
    (exSuppressed.Typ = EventType.SUPPRESSED ∨ exSuppressed.Typ = EventType.ESCALATED)
      ∧ mapGet exTracking.notifiedAlerts exSuppressed.Alert.Id = some ⟨exActive, 100⟩
      ∧ mapGet (Notify exEnv 150 exTracking exSuppressed).1.notifiedAlerts exSuppressed.Alert.Id
        = some ⟨exSuppressed, 100⟩
      ∧ (Notify exEnv 150 exTracking exSuppressed).2 = []
      ∧ mapGet exEmpty.notifiedAlerts exSuppressed.Alert.Id = none
      ∧ Notify exEnv 150 exEmpty exSuppressed
        = (exEmpty, deliveriesTo exEnv exSuppressed
            (selectedOutputs exEnv (exEnv.GetAlertConfig "disk"))) :=
  have h := (Notify_suppressed_escalated exEnv 150 exTracking exSuppressed (Or.inl rfl)
    exEnv_disk_enabled).1 ⟨exActive, 100⟩ rfl
  have h2 := (Notify_suppressed_escalated exEnv 150 exEmpty exSuppressed (Or.inl rfl)
    exEnv_disk_enabled).2 rfl
  ⟨Or.inl rfl, rfl, h.1, h.2.2, rfl, h2⟩

theorem Notify_cleared_expired_witness :
    (exCleared.Typ = EventType.CLEARED ∨ exCleared.Typ = EventType.EXPIRED)
      ∧ (∃ c, exEnv.GetAlertConfig exCleared.Alert.Name = some c ∧ c.NotifyOnClear = true)
      ∧ mapGet (Notify exEnv 150 exTracking exCleared).1.notifiedAlerts exCleared.Alert.Id = none
      ∧ (Notify exEnv 150 exTracking exCleared).2
        = deliveriesTo exEnv exCleared (selectedOutputs exEnv (exEnv.GetAlertConfig "disk")) :=
  have h := Notify_cleared_expired exEnv 150 exTracking exCleared (Or.inl rfl)
    exEnv_disk_enabled
  ⟨Or.inl rfl, ⟨exConfig, exEnv_disk, rfl⟩, h.1, (h.2.1 rfl).1 ⟨exConfig, exEnv_disk, rfl⟩⟩

theorem remind_selection_witness :
    (mapKeys exTracking.notifiedAlerts).Nodup
      ∧ (remind exEnv (100 + twoMinutes) exTracking).1.notifiedAlerts
        = exTracking.notifiedAlerts.map (remindMark exEnv (100 + twoMinutes))
      ∧ remind exEnv (99 + twoMinutes) ⟨[(7, ⟨exActive, 100⟩)]⟩ = (⟨[(7, ⟨exActive, 100⟩)]⟩, [])
      ∧ remind exEnv (100 + twoMinutes) ⟨[(7, ⟨exActive, 100⟩)]⟩
        = (⟨[(7, ⟨exActive, 100 + twoMinutes⟩)]⟩,
            deliveriesTo exEnv exActive (selectedOutputs exEnv (some exConfig))) :=
  ⟨by decide,
    (remind_selection exEnv (100 + twoMinutes) exTracking (by decide)).1,
    ((remind_selection exEnv (99 + twoMinutes) exTracking (by decide)).2.2.2.2.2
      7 exActive 100 exConfig exEnv_disk rfl (by decide)).1 (by decide),
    ((remind_selection exEnv (100 + twoMinutes) exTracking (by decide)).2.2.2.2.2
      7 exActive 100 exConfig exEnv_disk rfl (by decide)).2 (by decide)⟩

/-! ## Theorems: suppress.go -/

theorem evictAt_length (b : List SuppressionRule) (len i : Nat) (hi : i + 1 ≤ len)
    (hl : len ≤ b.length) : (evictAt b len i).length = b.length := by
  simp only [evictAt, List.length_append, List.length_take, List.length_drop]
  omega

theorem evictAt_take (b : List SuppressionRule) (len i : Nat) (hi : i + 1 ≤ len)
    (hl : len ≤ b.length) : (evictAt b len i).take (len - 1) = (b.take len).eraseIdx i := by
  have h1 : (b.take i ++ (b.drop (i + 1)).take (len - (i + 1))).length = len - 1 := by
    simp only [List.length_append, List.length_take, List.length_drop]
    omega
  unfold evictAt
  rw [List.take_append_eq_append_take, h1]
  simp only [Nat.sub_self, List.take_zero, List.append_nil]
  rw [List.take_of_length_le (by rw [h1])]
  rw [List.eraseIdx_eq_take_drop_succ]
  congr 1
  · rw [List.take_take]
    congr 1
    omega
  · rw [List.drop_take]

theorem evictAt_mem (b : List SuppressionRule) (len i : Nat) (x : SuppressionRule)
    (h : x ∈ evictAt b len i) : x ∈ b := by
  simp only [evictAt, List.mem_append] at h
  rcases h with (h | h) | h
  · exact List.mem_of_mem_take h
  · exact List.mem_of_mem_drop (List.mem_of_mem_take h)
  · exact List.mem_of_mem_drop h

theorem perm_cons_eraseIdx (l : List SuppressionRule) (i : Nat) (a : SuppressionRule)
    (h : l[i]? = some a) : l.Perm (a :: l.eraseIdx i) := by
  induction l generalizing i with
  | nil => simp at h
  | cons x rest ih =>
    cases i with
    | zero =>
      simp only [List.getElem?_cons_zero, Option.some.injEq] at h
      subst h
      simp
    | succ j =>
      simp only [List.getElem?_cons_succ] at h
      simp only [List.eraseIdx_cons_succ]
      exact ((ih j h).cons x).trans (List.Perm.swap a x _)
theorem MatchInv_init (ops : RuleOps) (labels : Labels) (cond : MatchCondition)
    (cache : List SuppressionRule) :
    MatchInv ops labels cond cache { backing := cache, len := cache.length, matched := [] } where
  hlen := rfl
  hle := le_refl _
  hsub := by simp
  hperm := by simp
  hmatched := by simp
  hmem := fun _ h => h

theorem MatchInv_step (ops : RuleOps) (labels : Labels) (cond : MatchCondition)
    (cache : List SuppressionRule) (i : Nat) (st st1 : matchState)
    (hinv : MatchInv ops labels cond cache st)
    (hstep : matchStep ops labels cond i st = some st1) :
    MatchInv ops labels cond cache st1 := by
  unfold matchStep at hstep
  cases hr : st.backing[i]? with
  | none =>
    simp only [hr, Option.some.injEq] at hstep
    exact hstep ▸ hinv
  | some rule =>
    simp only [hr] at hstep
    by_cases hm : ops.Match rule labels cond = true
    · simp only [hm, if_true] at hstep
      by_cases he : ops.TimeLeft rule ≤ 0
      · simp only [he, if_true] at hstep
        by_cases hi : i + 1 ≤ st.len
        · simp only [hi, if_true, Option.some.injEq] at hstep
          subst hstep
          have hl : st.len ≤ st.backing.length := by rw [hinv.hlen]; exact hinv.hle
          have htake := evictAt_take st.backing st.len i hi hl
          have hget : (st.backing.take st.len)[i]? = some rule := by
            rw [List.getElem?_take_of_lt (by omega)]
            exact hr
          have hp := perm_cons_eraseIdx _ i rule hget
          refine ⟨?_, ?_, ?_, ?_, ?_, ?_⟩
          · simp only
            rw [evictAt_length _ _ _ hi hl, hinv.hlen]
          · have := hinv.hle
            simp only
            omega
          · simp only
            rw [htake]
            exact (List.eraseIdx_sublist _ _).trans hinv.hsub
          · simp only
            rw [htake, List.filter_append]
            have hf : [rule].filter (fun r => decide (ops.TimeLeft r ≤ 0)) = [rule] := by
              simp [he]
            rw [hf]
            refine hinv.hperm.trans ?_
            refine (List.Perm.append_right _ hp).trans ?_
            simp only [List.cons_append]
            rw [← List.append_assoc]
            exact (List.perm_append_singleton _ _).symm
          · intro r hrm
            simp only [List.mem_append, List.mem_singleton] at hrm
            rcases hrm with hrm | hrm
            · exact hinv.hmatched r hrm
            · exact hrm ▸ ⟨hm, hinv.hmem rule (List.getElem?_mem hr)⟩
          · intro r hrm
            exact hinv.hmem r (evictAt_mem _ _ _ _ hrm)
        · simp [hi] at hstep
      · simp only [he, if_false, Option.some.injEq] at hstep
        subst hstep
        refine ⟨hinv.hlen, hinv.hle, hinv.hsub, ?_, ?_, hinv.hmem⟩
        · simp only
          rw [List.filter_append]
          have hf : [rule].filter (fun r => decide (ops.TimeLeft r ≤ 0)) = [] := by
            simp [he]
          rw [hf, List.append_nil]
          exact hinv.hperm
        · intro r hrm
          simp only [List.mem_append, List.mem_singleton] at hrm
          rcases hrm with hrm | hrm
          · exact hinv.hmatched r hrm
          · exact hrm ▸ ⟨hm, hinv.hmem rule (List.getElem?_mem hr)⟩
    · simp only [hm] at hstep
      simp only [Bool.false_eq_true, if_false, Option.some.injEq] at hstep
      exact hstep ▸ hinv

theorem MatchInv_from (ops : RuleOps) (labels : Labels) (cond : MatchCondition)
    (cache : List SuppressionRule) (remaining i : Nat) (st st1 : matchState)
    (hinv : MatchInv ops labels cond cache st)
    (hrun : matchFrom ops labels cond remaining i st = some st1) :
    MatchInv ops labels cond cache st1 := by
  induction remaining generalizing i st with
  | zero =>
    simp only [matchFrom, Option.some.injEq] at hrun
    exact hrun ▸ hinv
  | succ k ih =>
    simp only [matchFrom] at hrun
    cases hs : matchStep ops labels cond i st with
    | none => simp [hs] at hrun
    | some st2 =>
      simp only [hs] at hrun
      exact ih (i + 1) st2 (MatchInv_step ops labels cond cache i st st2 hinv hs) hrun

theorem MatchInv_loop (ops : RuleOps) (labels : Labels) (cond : MatchCondition)
    (cache : List SuppressionRule) (st : matchState)
    (hrun : matchLoop ops labels cond cache = some st) :
    MatchInv ops labels cond cache st :=
  MatchInv_from ops labels cond cache _ _ _ _ (MatchInv_init ops labels cond cache) hrun

theorem filter_eq_of_sublist_perm (p : SuppressionRule → Bool)
    (l l1 gone : List SuppressionRule) (hsub : l1.Sublist l) (hperm : l.Perm (l1 ++ gone))
    (hgone : ∀ r ∈ gone, p r = false) : l1.filter p = l.filter p := by
  have h1 : (l1.filter p).Sublist (l.filter p) := hsub.filter p
  have h2 : (l.filter p).Perm (l1.filter p) := by
    have := hperm.filter p
    rw [List.filter_append] at this
    have hnil : gone.filter p = [] := by
      rw [List.filter_eq_nil_iff]
      intro r hr
      simp [hgone r hr]
    rw [hnil, List.append_nil] at this
    exact this
  exact h1.eq_of_length h2.length_eq.symm

theorem Match_some (ops : RuleOps)
    (sortSlice : (SuppressionRule → SuppressionRule → Bool) →
      List SuppressionRule → List SuppressionRule)
    (cache : List SuppressionRule) (labels : Labels) (cond : MatchCondition)
    (res : SuppressionRule × Bool) (cache1 : List SuppressionRule)
    (h : Match ops sortSlice cache labels cond = some (res, cache1)) :
    ∃ st, matchLoop ops labels cond cache = some st ∧ cache1 = st.backing.take st.len
      ∧ (res.2 = true → res.1 ∈ sortSlice createdAfter st.matched) := by
  unfold Match at h
  cases hl : matchLoop ops labels cond cache with
  | none => simp [hl] at h
  | some st =>
    refine ⟨st, rfl, ?_⟩
    simp only [hl] at h
    by_cases hpos : st.matched.length > 0
    · simp only [hpos, if_true] at h
      cases hs : sortSlice createdAfter st.matched with
      | nil => simp [hs] at h
      | cons r rest =>
        simp only [hs, Option.some.injEq, Prod.mk.injEq] at h
        refine ⟨h.2.symm, fun _ => ?_⟩
        rw [← h.1]
        simp
    · simp only [hpos, if_false, Option.some.injEq, Prod.mk.injEq] at h
      refine ⟨h.2.symm, fun ht => ?_⟩
      rw [← h.1] at ht
      simp at ht

/-- C2. Evaluation of `Match` on a cache of three rules that all match the
labels: the first has no time left, the second and the third are not expired and
the second was created later than the third.  Evicting the first rule moves the
second to a position the loop has passed: `Match` answers with the third rule,
although the second matches, is not expired and has the later `CreatedAt`. -/
theorem Match_misses_latest_rule :
    Match (specOps 100) insertionSortSlice
        [exRule 1 1 10, exRule 2 5 1000, exRule 3 3 1000] exLabels 0
        = some ((exRule 3 3 1000, true), [exRule 2 5 1000, exRule 3 3 1000])
      ∧ (specOps 100).Match (exRule 2 5 1000) exLabels 0 = true
      ∧ (specOps 100).Match (exRule 3 3 1000) exLabels 0 = true
      ∧ 0 < (specOps 100).TimeLeft (exRule 2 5 1000)
      ∧ 0 < (specOps 100).TimeLeft (exRule 3 3 1000)
      ∧ (exRule 2 5 1000).CreatedAt > (exRule 3 3 1000).CreatedAt := by
  decide

/-- C3, counterexample.  On a cache holding one matching rule with no time left
(and `DontExpire` not set), `Match` answers with that rule. -/
theorem Match_answers_expired_rule :
    Match (specOps 100) insertionSortSlice [exRule 1 1 10] exLabels 0
        = some ((exRule 1 1 10, true), [])
      ∧ ¬ ((exRule 1 1 10).DontExpire = true ∨ (specOps 100).TimeLeft (exRule 1 1 10) > 0) := by
  decide

/-- C3, amended.  If `Match` returns `(r, true)` then `r` satisfies
`rule.Match(labels, cond)` and was in the cache when `Match` was called; and
`r.TimeLeft() > 0` at the time of the call or else this call has removed `r`
from the cache (the cache holds one copy of `r` less than before). -/
theorem Match_answer_matches_and_evicted_if_expired (ops : RuleOps)
    (sortSlice : (SuppressionRule → SuppressionRule → Bool) →
      List SuppressionRule → List SuppressionRule)
    (cache : List SuppressionRule) (labels : Labels) (cond : MatchCondition)
    (r : SuppressionRule) (cache1 : List SuppressionRule)
    (hsort : ∀ l, (sortSlice createdAfter l).Perm l)
    (h : Match ops sortSlice cache labels cond = some ((r, true), cache1)) :
    ops.Match r labels cond = true ∧ r ∈ cache
      ∧ (0 < ops.TimeLeft r ∨ cache1.count r + 1 ≤ cache.count r) := by
  obtain ⟨st, hloop, hc, hr⟩ := Match_some ops sortSlice cache labels cond _ _ h
  have hinv := MatchInv_loop ops labels cond cache st hloop
  have hrm : r ∈ st.matched := (hsort st.matched).subset (hr rfl)
  refine ⟨(hinv.hmatched r hrm).1, (hinv.hmatched r hrm).2, ?_⟩
  by_cases he : ops.TimeLeft r ≤ 0
  · right
    have hcount := hinv.hperm.count_eq r
    rw [List.count_append, ← hc] at hcount
    have hin : r ∈ st.matched.filter (fun r => decide (ops.TimeLeft r ≤ 0)) :=
      List.mem_filter.mpr ⟨hrm, by simp [he]⟩
    have hpos := List.count_pos_iff.mpr hin
    omega
  · left
    omega

theorem insertionSortSlice_perm (l : List SuppressionRule) :
    (insertionSortSlice createdAfter l).Perm l :=
  List.perm_insertionSort _ l

theorem Match_answer_matches_and_evicted_if_expired_witness :
    Match (specOps 100) insertionSortSlice [exRule 1 1 10, exOtherRule 2 1 10] exLabels 0
        = some ((exRule 1 1 10, true), [exOtherRule 2 1 10])
      ∧ (specOps 100).Match (exRule 1 1 10) exLabels 0 = true
      ∧ exRule 1 1 10 ∈ [exRule 1 1 10, exOtherRule 2 1 10]
      ∧ (0 < (specOps 100).TimeLeft (exRule 1 1 10)
        ∨ [exOtherRule 2 1 10].count (exRule 1 1 10) + 1
          ≤ [exRule 1 1 10, exOtherRule 2 1 10].count (exRule 1 1 10)) :=
  ⟨by decide,
    Match_answer_matches_and_evicted_if_expired (specOps 100) insertionSortSlice
      [exRule 1 1 10, exOtherRule 2 1 10] exLabels 0 (exRule 1 1 10) [exOtherRule 2 1 10]
      insertionSortSlice_perm (by decide)⟩

/-- C4, counterexample.  A rule with no time left (and `DontExpire` not set) that
does not match the labels is visited by `Match` and is still in the cache after
the call. -/
theorem Match_keeps_unmatched_expired_rule :
    Match (specOps 100) insertionSortSlice [exOtherRule 2 1 10] exLabels 0
        = some ((zeroRule, false), [exOtherRule 2 1 10])
      ∧ (exOtherRule 2 1 10).DontExpire = false
      ∧ (specOps 100).TimeLeft (exOtherRule 2 1 10) ≤ 0 := by
  decide

/-- C4, amended.  When `Match` returns, the cache has lost exactly the rules that
the pass visited and found both matching the labels and with `TimeLeft() <= 0`:
the cache before the call is the cache after it together with those rules, the
cache after it keeps the order of the cache before, and every rule that does not
match the labels is still there, expired or not. -/
theorem Match_evicts_matched_expired (ops : RuleOps)
    (sortSlice : (SuppressionRule → SuppressionRule → Bool) →
      List SuppressionRule → List SuppressionRule)
    (cache : List SuppressionRule) (labels : Labels) (cond : MatchCondition)
    (res : SuppressionRule × Bool) (cache1 : List SuppressionRule)
    (h : Match ops sortSlice cache labels cond = some (res, cache1)) :
    ∃ st, matchLoop ops labels cond cache = some st
      ∧ (∀ r ∈ st.matched, ops.Match r labels cond = true)
      ∧ cache.Perm (cache1 ++ st.matched.filter (fun r => decide (ops.TimeLeft r ≤ 0)))
      ∧ cache1.Sublist cache
      ∧ cache1.filter (fun r => !ops.Match r labels cond)
        = cache.filter (fun r => !ops.Match r labels cond) := by
  obtain ⟨st, hloop, hc, _⟩ := Match_some ops sortSlice cache labels cond _ _ h
  have hinv := MatchInv_loop ops labels cond cache st hloop
  refine ⟨st, hloop, fun r hr => (hinv.hmatched r hr).1, hc ▸ hinv.hperm, hc ▸ hinv.hsub, ?_⟩
  apply filter_eq_of_sublist_perm _ cache cache1 _ (hc ▸ hinv.hsub) (hc ▸ hinv.hperm)
  intro r hr
  have := (hinv.hmatched r (List.mem_filter.mp hr).1).1
  simp [this]

theorem Match_evicts_matched_expired_witness :
    Match (specOps 100) insertionSortSlice
        [exOtherRule 2 1 10, exRule 1 1 10, exRule 3 3 1000] exLabels 0
        = some ((exRule 3 3 1000, true), [exOtherRule 2 1 10, exRule 3 3 1000])
      ∧ ∃ st, matchLoop (specOps 100) exLabels 0
            [exOtherRule 2 1 10, exRule 1 1 10, exRule 3 3 1000] = some st
        ∧ (∀ r ∈ st.matched, (specOps 100).Match r exLabels 0 = true)
        ∧ [exOtherRule 2 1 10, exRule 1 1 10, exRule 3 3 1000].Perm
            ([exOtherRule 2 1 10, exRule 3 3 1000]
              ++ st.matched.filter (fun r => decide ((specOps 100).TimeLeft r ≤ 0)))
        ∧ [exOtherRule 2 1 10, exRule 3 3 1000].Sublist
            [exOtherRule 2 1 10, exRule 1 1 10, exRule 3 3 1000]
        ∧ [exOtherRule 2 1 10, exRule 3 3 1000].filter
              (fun r => !(specOps 100).Match r exLabels 0)
          = [exOtherRule 2 1 10, exRule 1 1 10, exRule 3 3 1000].filter
              (fun r => !(specOps 100).Match r exLabels 0) :=
  ⟨by decide,
    Match_evicts_matched_expired (specOps 100) insertionSortSlice
      [exOtherRule 2 1 10, exRule 1 1 10, exRule 3 3 1000] exLabels 0
      (exRule 3 3 1000, true) [exOtherRule 2 1 10, exRule 3 3 1000] (by decide)⟩

/-! ### Storage operations -/

/-- C11. `UnsuppressAlert` rejects stale state: when the alert cannot be read by
its id, or is read with a status other than SUPPRESSED, an error is returned,
`tx.UpdateAlert` is not called and the alert of the caller is as before; when it
is read with status SUPPRESSED, `alert.Unsuppress()` is applied, `tx.UpdateAlert`
is called once on that alert, and the error returned is the error of that
update, so an error is returned exactly when the update fails. -/
theorem UnsuppressAlert_contract (aops : AlertOps) (tx : Txn)
    (suppRules : List SuppressionRule) (alert : Alert) :
    (∀ err, tx.GetAlert alert.Id = Except.error err →
        (UnsuppressAlert aops tx suppRules alert).err = some err
          ∧ (UnsuppressAlert aops tx suppRules alert).alert = alert
          ∧ (UnsuppressAlert aops tx suppRules alert).calls = [TxCall.GetAlert alert.Id])
      ∧ (∀ existing, tx.GetAlert alert.Id = Except.ok existing →
          existing.Status ≠ AlertStatus.SUPPRESSED →
        (UnsuppressAlert aops tx suppRules alert).err.isSome = true
          ∧ (UnsuppressAlert aops tx suppRules alert).alert = alert
          ∧ (UnsuppressAlert aops tx suppRules alert).calls = [TxCall.GetAlert alert.Id])
      ∧ (∀ existing, tx.GetAlert alert.Id = Except.ok existing →
          existing.Status = AlertStatus.SUPPRESSED →
        (UnsuppressAlert aops tx suppRules alert).alert = aops.Unsuppress alert
          ∧ (UnsuppressAlert aops tx suppRules alert).calls
            = [TxCall.GetAlert alert.Id, TxCall.UpdateAlert (aops.Unsuppress alert)]
          ∧ (UnsuppressAlert aops tx suppRules alert).err
            = tx.UpdateAlert (aops.Unsuppress alert)
          ∧ ((UnsuppressAlert aops tx suppRules alert).err.isSome = true
            ↔ (tx.UpdateAlert (aops.Unsuppress alert)).isSome = true)) := by
  refine ⟨?_, ?_, ?_⟩
  · intro err h
    simp [UnsuppressAlert, h]
  · intro existing h hs
    simp [UnsuppressAlert, h, hs]
  · intro existing h hs
    have hres : (UnsuppressAlert aops tx suppRules alert).alert = aops.Unsuppress alert
        ∧ (UnsuppressAlert aops tx suppRules alert).calls
          = [TxCall.GetAlert alert.Id, TxCall.UpdateAlert (aops.Unsuppress alert)]
        ∧ (UnsuppressAlert aops tx suppRules alert).err
          = tx.UpdateAlert (aops.Unsuppress alert) := by
      cases hu : tx.UpdateAlert (aops.Unsuppress alert) with
      | none => simp [UnsuppressAlert, h, hs, hu]
      | some e => simp [UnsuppressAlert, h, hs, hu]
    refine ⟨hres.1, hres.2.1, hres.2.2, ?_⟩
    rw [hres.2.2]

theorem UnsuppressAlert_contract_witness :
    exTx.GetAlert ({ exAlert with Status := AlertStatus.SUPPRESSED } : Alert).Id
        = Except.ok { exAlert with Status := AlertStatus.SUPPRESSED }
      ∧ (UnsuppressAlert exAlertOps exTx [] { exAlert with Status := AlertStatus.SUPPRESSED }).alert
        = exAlert
      ∧ (UnsuppressAlert exAlertOps exTx [] { exAlert with Status := AlertStatus.SUPPRESSED }).err
        = none
      ∧ exFailingTx.GetAlert exAlert.Id = Except.error "db down"
      ∧ (UnsuppressAlert exAlertOps exFailingTx [] exAlert).err = some "db down"
      ∧ (UnsuppressAlert exAlertOps exFailingTx [] exAlert).alert = exAlert :=
  have h := (UnsuppressAlert_contract exAlertOps exTx []
    { exAlert with Status := AlertStatus.SUPPRESSED }).2.2
    { exAlert with Status := AlertStatus.SUPPRESSED } rfl rfl
  have hf := (UnsuppressAlert_contract exAlertOps exFailingTx [] exAlert).1 "db down" rfl
  ⟨rfl, h.1, h.2.2.1, rfl, hf.1, hf.2.1⟩

/-- C12. Error contract of `SuppressAlert`: an error is returned exactly when
`tx.UpdateAlert` fails or saving the rule (`tx.NewSuppRule`) fails; when
`tx.UpdateAlert` fails the save is not attempted; whenever an error is returned
the cache is as before; when none is returned the cache is the cache before
with one rule appended, the given rule with `Id` set to the id the storage
returned. -/
theorem SuppressAlert_contract (aops : AlertOps) (tx : Txn)
    (suppRules : List SuppressionRule) (alert : Alert) (rule : SuppressionRule) :
    ((SuppressAlert aops tx suppRules alert rule).err.isSome = true
        ↔ ((tx.UpdateAlert (aops.Suppress alert (wrapInt64 (rule.Duration * Second)))).isSome
              = true
            ∨ ∃ e, tx.NewSuppRule rule = Except.error e))
      ∧ ((tx.UpdateAlert (aops.Suppress alert (wrapInt64 (rule.Duration * Second)))).isSome
            = true →
          (SuppressAlert aops tx suppRules alert rule).calls
            = [TxCall.UpdateAlert (aops.Suppress alert (wrapInt64 (rule.Duration * Second)))])
      ∧ ((SuppressAlert aops tx suppRules alert rule).err.isSome = true →
          (SuppressAlert aops tx suppRules alert rule).suppRules = suppRules)
      ∧ ((SuppressAlert aops tx suppRules alert rule).err = none →
          ∃ id, tx.NewSuppRule rule = Except.ok id
            ∧ (SuppressAlert aops tx suppRules alert rule).suppRules
              = suppRules ++ [{ rule with Id := id }]) := by
  cases hu : tx.UpdateAlert (aops.Suppress alert (wrapInt64 (rule.Duration * Second))) with
  | some e => simp [SuppressAlert, hu]
  | none =>
    cases hn : tx.NewSuppRule rule with
    | error e => simp [SuppressAlert, SaveRule, hu, hn]
    | ok id => simp [SuppressAlert, SaveRule, hu, hn]

theorem SuppressAlert_contract_witness :
    (SuppressAlert exAlertOps exTx [exRule 1 1 10] exAlert (exRule 0 50 60)).err = none
      ∧ (∃ id, exTx.NewSuppRule (exRule 0 50 60) = Except.ok id
        ∧ (SuppressAlert exAlertOps exTx [exRule 1 1 10] exAlert (exRule 0 50 60)).suppRules
          = [exRule 1 1 10] ++ [{ exRule 0 50 60 with Id := id }])
      ∧ (SuppressAlert exAlertOps exFailingTx [exRule 1 1 10] exAlert
          (exRule 0 50 60)).err.isSome = true
      ∧ (SuppressAlert exAlertOps exFailingTx [exRule 1 1 10] exAlert (exRule 0 50 60)).suppRules
        = [exRule 1 1 10] :=
  ⟨rfl,
    (SuppressAlert_contract exAlertOps exTx [exRule 1 1 10] exAlert (exRule 0 50 60)).2.2.2 rfl,
    rfl,
    (SuppressAlert_contract exAlertOps exFailingTx [exRule 1 1 10] exAlert
      (exRule 0 50 60)).2.2.1 rfl⟩

theorem foldl_append_singleton (f : String × String → SuppressionRule) (l : Labels)
    (acc : List SuppressionRule) :
    l.foldl (fun cache kv => cache ++ [f kv]) acc = acc ++ l.map f := by
  induction l generalizing acc with
  | nil => simp
  | cons kv rest ih =>
    simp only [List.foldl_cons, List.map_cons]
    rw [ih]
    simp

theorem loadSuppRules_foldl
    (newSuppRule : Labels → String → String → String → Int → SuppressionRule)
    (config : List ConfigSuppRule) (acc : List SuppressionRule) :
    config.foldl
        (fun cache rule =>
          rule.Matches.foldl (fun cache kv => cache ++ [configRule newSuppRule rule kv]) cache)
        acc
      = acc ++ config.flatMap (fun rule => rule.Matches.map (configRule newSuppRule rule)) := by
  induction config generalizing acc with
  | nil => simp
  | cons rule rest ih =>
    simp only [List.foldl_cons, List.flatMap_cons]
    rw [ih, foldl_append_singleton]
    simp

/-- C13. `loadSuppRules` is a full replace: whatever the cache was, the cache
after the call is the rules returned by the storage select followed by the
rules of the configuration, one rule for each pair of each configured rule, in
order, built from the single pair, the configured type, reason and duration
and marked `DontExpire`; when the select fails the cache holds the rules of the
configuration only. -/
theorem loadSuppRules_full_replace
    (newSuppRule : Labels → String → String → String → Int → SuppressionRule)
    (tx : Txn) (config : List ConfigSuppRule) (suppRules : List SuppressionRule) :
    (∀ rules, tx.SelectRules = Except.ok rules →
        loadSuppRules newSuppRule tx config suppRules
          = rules ++ config.flatMap (fun rule => rule.Matches.map (fun kv =>
              { newSuppRule [kv] rule.Rtype rule.Reason "alert manager" rule.Duration with
                DontExpire := true })))
      ∧ (∀ e, tx.SelectRules = Except.error e →
        loadSuppRules newSuppRule tx config suppRules
          = config.flatMap (fun rule => rule.Matches.map (fun kv =>
              { newSuppRule [kv] rule.Rtype rule.Reason "alert manager" rule.Duration with
                DontExpire := true })))
      ∧ (∀ other, loadSuppRules newSuppRule tx config other
          = loadSuppRules newSuppRule tx config suppRules)
      ∧ ((∀ m t r c d, (newSuppRule m t r c d).Matches = m ∧ (newSuppRule m t r c d).Rtype = t
            ∧ (newSuppRule m t r c d).Reason = r ∧ (newSuppRule m t r c d).Duration = d) →
          ∀ rule ∈ config, ∀ kv ∈ rule.Matches,
            ∃ r ∈ loadSuppRules newSuppRule tx config suppRules,
              r.Matches = [kv] ∧ r.Rtype = rule.Rtype ∧ r.Reason = rule.Reason
                ∧ r.Duration = rule.Duration ∧ r.DontExpire = true) := by
  have hfold := loadSuppRules_foldl newSuppRule config
  refine ⟨?_, ?_, fun _ => rfl, ?_⟩
  · intro rules h
    simp only [loadSuppRules, h, hfold]
    rfl
  · intro e h
    simp only [loadSuppRules, h, hfold, List.nil_append]
    rfl
  · intro hctor rule hrule kv hkv
    refine ⟨configRule newSuppRule rule kv, ?_, ?_⟩
    · simp only [loadSuppRules, hfold]
      apply List.mem_append_right
      exact List.mem_flatMap.mpr ⟨rule, hrule, List.mem_map.mpr ⟨kv, hkv, rfl⟩⟩
    · have h := hctor [kv] rule.Rtype rule.Reason "alert manager" rule.Duration
      exact ⟨h.1, h.2.1, h.2.2.1, h.2.2.2, rfl⟩

theorem loadSuppRules_full_replace_witness :
    exTx.SelectRules = Except.ok [exRule 1 1 10]
      ∧ loadSuppRules (specNewSuppRule 100) exTx [exConfigRule] [exRule 2 5 1000]
        = [exRule 1 1 10] ++ [exConfigRule].flatMap (fun rule => rule.Matches.map (fun kv =>
            { specNewSuppRule 100 [kv] rule.Rtype rule.Reason "alert manager" rule.Duration with
              DontExpire := true }))
      ∧ exFailingTx.SelectRules = Except.error "db down"
      ∧ loadSuppRules (specNewSuppRule 100) exFailingTx [exConfigRule] [exRule 2 5 1000]
        = [exConfigRule].flatMap (fun rule => rule.Matches.map (fun kv =>
            { specNewSuppRule 100 [kv] rule.Rtype rule.Reason "alert manager" rule.Duration with
              DontExpire := true }))
      ∧ ∃ r ∈ loadSuppRules (specNewSuppRule 100) exTx [exConfigRule] [exRule 2 5 1000],
          r.Matches = [("team", "db")] ∧ r.Rtype = exConfigRule.Rtype
            ∧ r.Reason = exConfigRule.Reason ∧ r.Duration = exConfigRule.Duration
            ∧ r.DontExpire = true :=
  ⟨rfl,
    (loadSuppRules_full_replace (specNewSuppRule 100) exTx [exConfigRule]
      [exRule 2 5 1000]).1 [exRule 1 1 10] rfl,
    rfl,
    (loadSuppRules_full_replace (specNewSuppRule 100) exFailingTx [exConfigRule]
      [exRule 2 5 1000]).2.1 "db down" rfl,
    (loadSuppRules_full_replace (specNewSuppRule 100) exTx [exConfigRule]
      [exRule 2 5 1000]).2.2.2 (fun _ _ _ _ _ => ⟨rfl, rfl, rfl, rfl⟩)
      exConfigRule (by simp) ("team", "db") (by simp [exConfigRule])⟩

/-! ### Notify against its doc comment -/

/-- C14. Evaluation of `Notify` on a CLEARED event whose alert name has no
config, with a queue registered for the default output: nothing is delivered
(the method returns at the `notifyOnClear` test), although the doc comment of
`Notify` sends an event without config to the default output. -/
theorem Notify_without_config_cleared_sends_nothing :
    exEnv.GetAlertConfig exBareCleared.Alert.Name = none
      ∧ exEnv.Outputs exEnv.DefaultOutput = true
      ∧ Notify exEnv 150 exEmpty exBareCleared = (exEmpty, []) := by
  decide

/-- C15. Evaluation of `Notify` on a SUPPRESSED event whose alert name has a
config (notifications not disabled) and no record: the event is delivered to
the configured output that has a queue, although the doc comment of `Notify`
says that a suppressed alert is not notified. -/
theorem Notify_suppressed_with_config_sends :
    exEnv.GetAlertConfig exSuppressed.Alert.Name = some exConfig
      ∧ exSuppressed.Typ = EventType.SUPPRESSED
      ∧ Notify exEnv 150 exEmpty exSuppressed = (exEmpty, [("slack", exSuppressed)]) := by
  decide

/-! ### Lock traces -/

theorem allSendsUnderLock_sends (ds : List Delivery) :
    allSendsUnderLock true (ds.map (fun d => LockStep.Send d.1 d.2) ++ [LockStep.Unlock])
      = true := by
  induction ds with
  | nil => rfl
  | cons d rest ih =>
    show (true && allSendsUnderLock true
      (rest.map (fun d => LockStep.Send d.1 d.2) ++ [LockStep.Unlock])) = true
    rw [ih]
    rfl

/-- C16, counterexample.  `Notify` on a first ACTIVE event and `remind` on a due
record send on a queue between `n.Lock()` and the deferred `n.Unlock()`. -/
theorem notifier_sends_while_locked :
    NotifyTrace exEnv 100 exEmpty exActive
        = [LockStep.Lock, LockStep.Send "slack" exActive, LockStep.Unlock]
      ∧ noSendUnderLock false (NotifyTrace exEnv 100 exEmpty exActive) = false
      ∧ remindTrace exEnv (100 + twoMinutes) exTracking
        = [LockStep.Lock, LockStep.Send "slack" exActive, LockStep.Unlock]
      ∧ noSendUnderLock false (remindTrace exEnv (100 + twoMinutes) exTracking) = false := by
  decide

/-- C16, amended.  In every execution of `Notify` and of `remind`, every queue
send occurs while the lock of the notifier is held: the trace is the
acquisition of the lock, the sends of the call and the release of the lock, in
that order; `Notify` with notifications disabled takes no lock and sends
nothing. -/
theorem notifier_sends_only_while_locked (env : Env) (now : Int) (n : notifier)
    (event : AlertEvent) :
    allSendsUnderLock false (NotifyTrace env now n event) = true
      ∧ allSendsUnderLock false (remindTrace env now n) = true
      ∧ (NotifyTrace env now n event = []
        ∨ NotifyTrace env now n event
          = LockStep.Lock :: ((Notify env now n event).2.map (fun d => LockStep.Send d.1 d.2)
              ++ [LockStep.Unlock]))
      ∧ remindTrace env now n
        = LockStep.Lock :: ((remind env now n).2.map (fun d => LockStep.Send d.1 d.2)
            ++ [LockStep.Unlock]) := by
  refine ⟨?_, ?_, ?_, rfl⟩
  · unfold NotifyTrace
    split
    · rfl
    · simp only [List.singleton_append, List.cons_append, allSendsUnderLock]
      exact allSendsUnderLock_sends _
  · unfold remindTrace
    simp only [List.singleton_append, List.cons_append, allSendsUnderLock]
    exact allSendsUnderLock_sends _
  · unfold NotifyTrace
    split
    · exact Or.inl rfl
    · exact Or.inr rfl

/-! ### Match: panic, completeness, frame -/

/-- C18. Evaluation of `Match` on a cache of two matching rules with no time
left, the second one last: after the first eviction the loop reads the second
rule at index 1 of the backing array while `s.suppRules` has length 1, and the
slice expression `s.suppRules[2:]` panics. -/
theorem Match_panics_on_two_expired :
    matchLoop (specOps 100) exLabels 0 [exRule 1 1 10, exRule 2 2 10] = none
      ∧ Match (specOps 100) insertionSortSlice [exRule 1 1 10, exRule 2 2 10] exLabels 0
        = none
      ∧ (specOps 100).Match (exRule 1 1 10) exLabels 0 = true
      ∧ (specOps 100).Match (exRule 2 2 10) exLabels 0 = true
      ∧ (specOps 100).TimeLeft (exRule 1 1 10) ≤ 0
      ∧ (specOps 100).TimeLeft (exRule 2 2 10) ≤ 0 := by
  decide

theorem matchStep_no_match (ops : RuleOps) (labels : Labels) (cond : MatchCondition)
    (i : Nat) (st st1 : matchState) (hstep : matchStep ops labels cond i st = some st1)
    (hnil : st1.matched = []) :
    st1 = st ∧ ∀ rule, st.backing[i]? = some rule → ops.Match rule labels cond = false := by
  unfold matchStep at hstep
  cases hr : st.backing[i]? with
  | none =>
    simp only [hr, Option.some.injEq] at hstep
    exact ⟨hstep.symm, fun rule h => by simp at h⟩
  | some rule =>
    simp only [hr] at hstep
    by_cases hm : ops.Match rule labels cond = true
    · simp only [hm, if_true] at hstep
      exfalso
      by_cases he : ops.TimeLeft rule ≤ 0
      · simp only [he, if_true] at hstep
        by_cases hi : i + 1 ≤ st.len
        · simp only [hi, if_true, Option.some.injEq] at hstep
          rw [← hstep] at hnil
          simp at hnil
        · simp [hi] at hstep
      · simp only [he, if_false, Option.some.injEq] at hstep
        rw [← hstep] at hnil
        simp at hnil
    · simp only [hm, Bool.false_eq_true, if_false, Option.some.injEq] at hstep
      refine ⟨hstep.symm, fun r h => ?_⟩
      simp only [Option.some.injEq] at h
      rw [← h]
      simpa using hm

theorem matchFrom_no_match (ops : RuleOps) (labels : Labels) (cond : MatchCondition)
    (remaining i : Nat) (st st1 : matchState)
    (hrun : matchFrom ops labels cond remaining i st = some st1) (hnil : st1.matched = []) :
    st1 = st ∧ ∀ j rule, i ≤ j → j < i + remaining → st.backing[j]? = some rule →
      ops.Match rule labels cond = false := by
  induction remaining generalizing i st with
  | zero =>
    simp only [matchFrom, Option.some.injEq] at hrun
    exact ⟨hrun.symm, fun j rule h1 h2 => by omega⟩
  | succ k ih =>
    simp only [matchFrom] at hrun
    cases hs : matchStep ops labels cond i st with
    | none => simp [hs] at hrun
    | some st2 =>
      simp only [hs] at hrun
      obtain ⟨h12, hrest⟩ := ih (i + 1) st2 hrun
      have hnil2 : st2.matched = [] := h12 ▸ hnil
      obtain ⟨h2, hi⟩ := matchStep_no_match ops labels cond i st st2 hs hnil2
      refine ⟨h12.trans h2, fun j rule h1 hlt hget => ?_⟩
      by_cases hji : j = i
      · exact hi rule (hji ▸ hget)
      · exact hrest j rule (by omega) (by omega) (h2 ▸ hget)

theorem matchFrom_of_no_match (ops : RuleOps) (labels : Labels) (cond : MatchCondition)
    (remaining i : Nat) (st : matchState)
    (hno : ∀ rule ∈ st.backing, ops.Match rule labels cond = false) :
    matchFrom ops labels cond remaining i st = some st := by
  induction remaining generalizing i with
  | zero => rfl
  | succ k ih =>
    have hstep : matchStep ops labels cond i st = some st := by
      unfold matchStep
      cases hr : st.backing[i]? with
      | none => rfl
      | some rule => simp [hno rule (List.getElem?_mem hr)]
    simp only [matchFrom, hstep]
    exact ih (i + 1)

theorem Match_cases (ops : RuleOps)
    (sortSlice : (SuppressionRule → SuppressionRule → Bool) →
      List SuppressionRule → List SuppressionRule)
    (cache : List SuppressionRule) (labels : Labels) (cond : MatchCondition)
    (res : SuppressionRule × Bool) (cache1 : List SuppressionRule)
    (h : Match ops sortSlice cache labels cond = some (res, cache1)) :
    ∃ st, matchLoop ops labels cond cache = some st ∧ cache1 = st.backing.take st.len
      ∧ ((st.matched = [] ∧ res = (zeroRule, false)) ∨ (st.matched ≠ [] ∧ res.2 = true)) := by
  unfold Match at h
  cases hl : matchLoop ops labels cond cache with
  | none => simp [hl] at h
  | some st =>
    refine ⟨st, rfl, ?_⟩
    simp only [hl] at h
    by_cases hpos : st.matched.length > 0
    · simp only [hpos, if_true] at h
      cases hs : sortSlice createdAfter st.matched with
      | nil => simp [hs] at h
      | cons r rest =>
        simp only [hs, Option.some.injEq, Prod.mk.injEq] at h
        refine ⟨h.2.symm, Or.inr ⟨?_, ?_⟩⟩
        · intro he
          rw [he] at hpos
          simp at hpos
        · rw [← h.1]
    · simp only [hpos, if_false, Option.some.injEq, Prod.mk.injEq] at h
      refine ⟨h.2.symm, Or.inl ⟨?_, h.1.symm⟩⟩
      cases hm : st.matched with
      | nil => rfl
      | cons a b =>
        rw [hm] at hpos
        simp at hpos

/-- C17. Completeness of `Match`: whenever `Match` returns, it answers "no match"
(the zero rule and `false`) exactly when no rule of the cache at the time of the
call satisfies `rule.Match(labels, cond)`; and when no rule of the cache matches,
`Match` does return, with that answer and the cache as it was. -/
theorem Match_no_match_iff (ops : RuleOps)
    (sortSlice : (SuppressionRule → SuppressionRule → Bool) →
      List SuppressionRule → List SuppressionRule)
    (cache : List SuppressionRule) (labels : Labels) (cond : MatchCondition) :
    (∀ res cache1, Match ops sortSlice cache labels cond = some (res, cache1) →
        (res.2 = false ↔ ∀ r ∈ cache, ops.Match r labels cond = false)
          ∧ (res.2 = false → res = (zeroRule, false)))
      ∧ ((∀ r ∈ cache, ops.Match r labels cond = false) →
        Match ops sortSlice cache labels cond = some ((zeroRule, false), cache)) := by
  constructor
  · intro res cache1 h
    obtain ⟨st, hloop, _, hcase⟩ := Match_cases ops sortSlice cache labels cond res cache1 h
    have hinv := MatchInv_loop ops labels cond cache st hloop
    rcases hcase with ⟨hnil, hres⟩ | ⟨hne, hres⟩
    · have hnm := matchFrom_no_match ops labels cond _ _ _ _ hloop hnil
      refine ⟨⟨fun _ r hr => ?_, fun _ => by rw [hres]⟩, fun _ => hres⟩
      obtain ⟨j, hj, hget⟩ := List.getElem_of_mem hr
      refine hnm.2 j r (Nat.zero_le j) (by simpa using hj) ?_
      show cache[j]? = some r
      rw [List.getElem?_eq_getElem hj, hget]
    · have hfalse : ¬ res.2 = false := by simp [hres]
      refine ⟨⟨fun hf => absurd hf hfalse, fun hall => ?_⟩, fun hf => absurd hf hfalse⟩
      exfalso
      obtain ⟨m, hm⟩ := List.exists_mem_of_ne_nil _ hne
      have := hinv.hmatched m hm
      rw [hall m this.2] at this
      simp at this
  · intro hall
    have hloop : matchLoop ops labels cond cache
        = some { backing := cache, len := cache.length, matched := [] } :=
      matchFrom_of_no_match ops labels cond _ _ _ hall
    simp [Match, hloop]

theorem Match_no_match_iff_witness :
    Match (specOps 100) insertionSortSlice [exOtherRule 2 1 10] exLabels 0
        = some ((zeroRule, false), [exOtherRule 2 1 10])
      ∧ (((zeroRule, false) : SuppressionRule × Bool).2 = false
        ↔ ∀ r ∈ [exOtherRule 2 1 10], (specOps 100).Match r exLabels 0 = false)
      ∧ (∀ r ∈ [exOtherRule 2 1 10], (specOps 100).Match r exLabels 0 = false) :=
  have hno : ∀ r ∈ [exOtherRule 2 1 10], (specOps 100).Match r exLabels 0 = false := by
    decide
  ⟨(Match_no_match_iff (specOps 100) insertionSortSlice [exOtherRule 2 1 10] exLabels 0).2 hno,
    ((Match_no_match_iff (specOps 100) insertionSortSlice [exOtherRule 2 1 10] exLabels 0).1
      (zeroRule, false) [exOtherRule 2 1 10] (by decide)).1,
    hno⟩

/-- C19. `Match` removes only expired rules: whenever `Match` returns, the cache
after the call is a subsequence of the cache before it, the cache before is the
cache after together with removed rules that all had `TimeLeft() <= 0` at the
time of the call, and the rules with `TimeLeft() > 0` are the same, in the same
order, before and after. -/
theorem Match_removes_only_expired (ops : RuleOps)
    (sortSlice : (SuppressionRule → SuppressionRule → Bool) →
      List SuppressionRule → List SuppressionRule)
    (cache : List SuppressionRule) (labels : Labels) (cond : MatchCondition)
    (res : SuppressionRule × Bool) (cache1 : List SuppressionRule)
    (h : Match ops sortSlice cache labels cond = some (res, cache1)) :
    cache1.Sublist cache
      ∧ (∃ gone, cache.Perm (cache1 ++ gone) ∧ ∀ r ∈ gone, ops.TimeLeft r ≤ 0)
      ∧ cache1.filter (fun r => decide (0 < ops.TimeLeft r))
        = cache.filter (fun r => decide (0 < ops.TimeLeft r)) := by
  obtain ⟨st, hloop, hc, _⟩ := Match_some ops sortSlice cache labels cond _ _ h
  have hinv := MatchInv_loop ops labels cond cache st hloop
  have hgone : ∀ r ∈ st.matched.filter (fun r => decide (ops.TimeLeft r ≤ 0)),
      ops.TimeLeft r ≤ 0 := by
    intro r hr
    simpa using (List.mem_filter.mp hr).2
  refine ⟨hc ▸ hinv.hsub, ⟨_, hc ▸ hinv.hperm, hgone⟩, ?_⟩
  apply filter_eq_of_sublist_perm _ cache cache1 _ (hc ▸ hinv.hsub) (hc ▸ hinv.hperm)
  intro r hr
  have := hgone r hr
  simp only [decide_eq_false_iff_not, not_lt]
  exact this

theorem Match_removes_only_expired_witness :
    Match (specOps 100) insertionSortSlice
        [exOtherRule 2 1 10, exRule 1 1 10, exRule 3 3 1000] exLabels 0
        = some ((exRule 3 3 1000, true), [exOtherRule 2 1 10, exRule 3 3 1000])
      ∧ [exOtherRule 2 1 10, exRule 3 3 1000].Sublist
          [exOtherRule 2 1 10, exRule 1 1 10, exRule 3 3 1000]
      ∧ (∃ gone, [exOtherRule 2 1 10, exRule 1 1 10, exRule 3 3 1000].Perm
            ([exOtherRule 2 1 10, exRule 3 3 1000] ++ gone)
          ∧ ∀ r ∈ gone, (specOps 100).TimeLeft r ≤ 0)
      ∧ [exOtherRule 2 1 10, exRule 3 3 1000].filter
            (fun r => decide (0 < (specOps 100).TimeLeft r))
        = [exOtherRule 2 1 10, exRule 1 1 10, exRule 3 3 1000].filter
            (fun r => decide (0 < (specOps 100).TimeLeft r)) :=
  ⟨by decide,
    Match_removes_only_expired (specOps 100) insertionSortSlice
      [exOtherRule 2 1 10, exRule 1 1 10, exRule 3 3 1000] exLabels 0
      (exRule 3 3 1000, true) [exOtherRule 2 1 10, exRule 3 3 1000] (by decide)⟩

/-! ### Notify: frame -/

theorem mapGet_append_ne (m : NotifMap) (k id : Int) (v : notification) (h : k ≠ id) :
    mapGet (m ++ [(k, v)]) id = mapGet m id := by
  induction m with
  | nil => simp [mapGet, h]
  | cons kv rest ih =>
    obtain ⟨a, w⟩ := kv
    by_cases ha : a = id
    · simp [mapGet, ha]
    · simp [mapGet, ha, ih]

theorem mapGet_mapSet_ne (m : NotifMap) (k id : Int) (v : notification) (h : k ≠ id) :
    mapGet (mapSet m k v) id = mapGet m id := by
  unfold mapSet
  split
  · exact mapGet_mapModify_ne m k id _ h
  · exact mapGet_append_ne m k id v h

theorem mapGet_mapDelete_ne (m : NotifMap) (k id : Int) (h : k ≠ id) :
    mapGet (mapDelete m k) id = mapGet m id := by
  induction m with
  | nil => simp [mapDelete, mapGet]
  | cons kv rest ih =>
    obtain ⟨a, w⟩ := kv
    by_cases hak : a = k
    · have hai : a ≠ id := fun e => h (hak ▸ e)
      have hd : mapDelete ((a, w) :: rest) k = mapDelete rest k := by
        simp [mapDelete, hak]
      rw [hd, ih]
      simp [mapGet, hai]
    · have hd : mapDelete ((a, w) :: rest) k = (a, w) :: mapDelete rest k := by
        simp [mapDelete, hak]
      rw [hd]
      by_cases hai : a = id
      · simp [mapGet, hai]
      · simp [mapGet, hai, ih]

theorem mapKeys_mapDelete_subset (m : NotifMap) (k a : Int)
    (h : a ∈ mapKeys (mapDelete m k)) : a ∈ mapKeys m := by
  simp only [mapKeys, mapDelete, List.mem_map, List.mem_filter] at h ⊢
  obtain ⟨kv, ⟨hkv, _⟩, he⟩ := h
  exact ⟨kv, hkv, he⟩

theorem mapKeys_mapSet_superset (m : NotifMap) (k a : Int) (v : notification)
    (h : a ∈ mapKeys m) : a ∈ mapKeys (mapSet m k v) := by
  unfold mapSet
  split
  · rw [mapKeys_mapModify]
    exact h
  · simp only [mapKeys, List.map_append, List.mem_append] at h ⊢
    exact Or.inl h

/-- The record map after `Notify`: the map before, or `m[id] = ..` on an ACTIVE
event, or `delete(m, id)` on a CLEARED or EXPIRED event, or an update of the
record of `id` on a SUPPRESSED or ESCALATED event. -/
theorem Notify_state_cases (env : Env) (now : Int) (n : notifier) (event : AlertEvent) :
    (Notify env now n event).1.notifiedAlerts = n.notifiedAlerts
      ∨ (event.Typ = EventType.ACTIVE
        ∧ (Notify env now n event).1.notifiedAlerts
          = mapSet n.notifiedAlerts event.Alert.Id ⟨event, now⟩)
      ∨ ((event.Typ = EventType.CLEARED ∨ event.Typ = EventType.EXPIRED)
        ∧ (Notify env now n event).1.notifiedAlerts
          = mapDelete n.notifiedAlerts event.Alert.Id)
      ∨ ((event.Typ = EventType.SUPPRESSED ∨ event.Typ = EventType.ESCALATED)
        ∧ ∃ f, (Notify env now n event).1.notifiedAlerts
          = mapModify n.notifiedAlerts event.Alert.Id f) := by
  by_cases hd : (match env.GetAlertConfig event.Alert.Name with
      | some c => c.DisableNotify
      | none => false) = true
  · left
    simp [Notify, hd]
  · cases ht : event.Typ with
    | ACTIVE =>
      by_cases hrec : (mapGet n.notifiedAlerts event.Alert.Id).isSome = true
      · left
        simp [Notify, hd, ht, hrec]
      · by_cases hdel : (match env.GetAlertConfig event.Alert.Name with
            | some c => decide (Sub event.Alert.LastActive event.Alert.StartTime < c.NotifyDelay)
            | none => false) = true
        · left
          simp only [Notify, hd, ht, hrec, hdel]
          rfl
        · right
          left
          refine ⟨rfl, ?_⟩
          simp only [Notify, hd, ht, hrec, hdel]
          rfl
    | CLEARED =>
      right
      right
      left
      refine ⟨Or.inl rfl, ?_⟩
      by_cases hb : (!match env.GetAlertConfig event.Alert.Name with
          | some c => c.NotifyOnClear
          | none => false) = true
      · simp [Notify, hd, ht, hb]
      · simp [Notify, hd, ht, hb]
    | EXPIRED =>
      right
      right
      left
      refine ⟨Or.inr rfl, ?_⟩
      simp [Notify, hd, ht]
    | SUPPRESSED =>
      cases hrec : mapGet n.notifiedAlerts event.Alert.Id with
      | none =>
        left
        simp [Notify, hd, ht, hrec]
      | some old =>
        right
        right
        right
        refine ⟨Or.inl rfl, fun notif => { notif with event := event }, ?_⟩
        simp [Notify, hd, ht, hrec]
    | ESCALATED =>
      cases hrec : mapGet n.notifiedAlerts event.Alert.Id with
      | none =>
        left
        simp [Notify, hd, ht, hrec]
      | some old =>
        right
        right
        right
        refine ⟨Or.inr rfl, fun notif => { notif with event := event }, ?_⟩
        simp [Notify, hd, ht, hrec]

/-- C20. `Notify` touches only the record of its own alert: the record of every
id other than `event.Alert.Id` is the same after the call as before; an event
that is not ACTIVE adds no id to the tracked ids; an event that is neither
CLEARED nor EXPIRED removes none. -/
theorem Notify_touches_own_record (env : Env) (now : Int) (n : notifier)
    (event : AlertEvent) :
    (∀ id, id ≠ event.Alert.Id →
        mapGet (Notify env now n event).1.notifiedAlerts id = mapGet n.notifiedAlerts id)
      ∧ (event.Typ ≠ EventType.ACTIVE →
        ∀ id, id ∈ mapKeys (Notify env now n event).1.notifiedAlerts →
          id ∈ mapKeys n.notifiedAlerts)
      ∧ (event.Typ ≠ EventType.CLEARED → event.Typ ≠ EventType.EXPIRED →
        ∀ id, id ∈ mapKeys n.notifiedAlerts →
          id ∈ mapKeys (Notify env now n event).1.notifiedAlerts) := by
  have hcases := Notify_state_cases env now n event
  refine ⟨?_, ?_, ?_⟩
  · intro id hid
    rcases hcases with h | ⟨_, h⟩ | ⟨_, h⟩ | ⟨_, f, h⟩
    · rw [h]
    · rw [h]
      exact mapGet_mapSet_ne _ _ _ _ (Ne.symm hid)
    · rw [h]
      exact mapGet_mapDelete_ne _ _ _ (Ne.symm hid)
    · rw [h]
      exact mapGet_mapModify_ne _ _ _ _ (Ne.symm hid)
  · intro hna id hmem
    rcases hcases with h | ⟨ht, _⟩ | ⟨_, h⟩ | ⟨_, f, h⟩
    · rw [h] at hmem
      exact hmem
    · exact absurd ht hna
    · rw [h] at hmem
      exact mapKeys_mapDelete_subset _ _ _ hmem
    · rw [h, mapKeys_mapModify] at hmem
      exact hmem
  · intro hnc hne id hmem
    rcases hcases with h | ⟨_, h⟩ | ⟨ht, _⟩ | ⟨_, f, h⟩
    · rw [h]
      exact hmem
    · rw [h]
      exact mapKeys_mapSet_superset _ _ _ _ hmem
    · rcases ht with ht | ht
      · exact absurd ht hnc
      · exact absurd ht hne
    · rw [h, mapKeys_mapModify]
      exact hmem

theorem Notify_touches_own_record_witness :
    (8 : Int) ≠ exCleared.Alert.Id
      ∧ mapGet (Notify exEnv 150 ⟨[(7, ⟨exActive, 100⟩), (8, ⟨exQuiet, 90⟩)]⟩
          exCleared).1.notifiedAlerts 8
        = mapGet [(7, ⟨exActive, 100⟩), (8, ⟨exQuiet, 90⟩)] 8
      ∧ exCleared.Typ ≠ EventType.ACTIVE
      ∧ (∀ id, id ∈ mapKeys (Notify exEnv 150 ⟨[(7, ⟨exActive, 100⟩), (8, ⟨exQuiet, 90⟩)]⟩
            exCleared).1.notifiedAlerts →
          id ∈ mapKeys [(7, ⟨exActive, 100⟩), (8, ⟨exQuiet, 90⟩)])
      ∧ exSuppressed.Typ ≠ EventType.CLEARED ∧ exSuppressed.Typ ≠ EventType.EXPIRED
      ∧ (∀ id, id ∈ mapKeys exTracking.notifiedAlerts →
          id ∈ mapKeys (Notify exEnv 150 exTracking exSuppressed).1.notifiedAlerts) :=
  ⟨by decide,
    (Notify_touches_own_record exEnv 150 ⟨[(7, ⟨exActive, 100⟩), (8, ⟨exQuiet, 90⟩)]⟩
      exCleared).1 8 (by decide),
    by decide,
    (Notify_touches_own_record exEnv 150 ⟨[(7, ⟨exActive, 100⟩), (8, ⟨exQuiet, 90⟩)]⟩
      exCleared).2.1 (by decide),
    by decide, by decide,
    (Notify_touches_own_record exEnv 150 exTracking exSuppressed).2.2 (by decide) (by decide)⟩

end AlertManager
